import Mathlib

set_option maxHeartbeats 1000000

/-!
Verification of the streaming body-decoding layer of `sentry/middleware/proxy.py`
and the breadcrumb normalizer of `sentry/interfaces/breadcrumbs.py`.

The zlib decompression engine (`zlib.decompressobj`) is an external collaborator
of the code under verification.  It is modelled here as an idealized streaming
codec over an abstract symbol alphabet: a compressed stream is a container
header followed by body symbols, each body symbol decoding to one output byte,
with a distinguished `corrupt` symbol standing for genuinely corrupted
compressed data (decompressing it raises the format error, exactly as
`zlib.error` does).  The engine's streaming interface mirrors the Python one:
`decompress(data, max_length)` returns at most `max_length` output bytes and
stores the unconsumed remainder of `data` in `unconsumed_tail`; `flush()`
processes the pending `unconsumed_tail` and returns the remaining output.
All control flow of `ZDecoder.readinto` itself is translated line by line.
-/

namespace SentryProxy

/-- A symbol of a compressed stream: a compressed byte, or corrupted data that
makes the decompression engine raise a format error when it reaches it. -/
inductive Sym where
  | byte : Nat → Sym
  | corrupt : Sym
deriving DecidableEq, Repr

/-- The container formats the zlib engine can be initialized for:
`zlib.decompressobj()` (zlib container), `zlib.decompressobj(-zlib.MAX_WBITS)`
(raw deflate), `zlib.decompressobj(16 + zlib.MAX_WBITS)` (gzip container). -/
inductive ZFormat where
  | zlibContainer
  | rawDeflate
  | gzipContainer
deriving DecidableEq, Repr

/-- The container header each format expects at the front of the stream. -/
def formatHeader : ZFormat → List Sym
  | ZFormat.zlibContainer => [Sym.byte 120]
  | ZFormat.rawDeflate => []
  | ZFormat.gzipContainer => [Sym.byte 31, Sym.byte 139]

/-- State of one `zlib` decompression object: its format, the header symbols it
still expects to see, and the `unconsumed_tail` attribute. -/
structure DecompressObj where
  fmt : ZFormat
  hdr : List Sym
  unconsumed_tail : List Sym
deriving DecidableEq, Repr

/-- `zlib.decompressobj(wbits)`: a fresh engine for format `f`. -/
def decompressobj (f : ZFormat) : DecompressObj :=
  ⟨f, formatHeader f, []⟩

/-- Decode a list of body symbols to output bytes; `none` on corrupted data. -/
def symsToBytes? : List Sym → Option (List Nat)
  | [] => some []
  | Sym.byte v :: rest => (symsToBytes? rest).map (fun bs => v :: bs)
  | Sym.corrupt :: _ => none

/-- `z.decompress(data, max_length)`: match the expected header at the front of
`data` (raising a format error on mismatch, i.e. returning `none`), then emit
at most `max_length` decoded body bytes; the rest of `data` becomes the new
`unconsumed_tail`.  A `corrupt` symbol inside the emitted window raises. -/
def decompress (z : DecompressObj) (data : List Sym) (maxLength : Nat) :
    Option (DecompressObj × List Nat) :=
  let m := min z.hdr.length data.length
  if data.take m = z.hdr.take m then
    match symsToBytes? ((data.drop m).take maxLength) with
    | some out =>
        some (⟨z.fmt, z.hdr.drop m, (data.drop m).drop maxLength⟩, out)
    | none => none
  else none

/-- `z.flush()`: process all pending input (the `unconsumed_tail`) and return
the remaining decompressed output; raises on corrupted pending data. -/
def DecompressObj.flush (z : DecompressObj) : Option (List Nat) :=
  symsToBytes? z.unconsumed_tail

/-- `Z_CHUNK = 1024 * 8` from proxy.py. -/
def Z_CHUNK : Nat := 1024 * 8

/-- Result of one `ZDecoder.readinto(buf)` call: on success the new values of
`self.fp` (remaining upstream bytes), `self.z`, `self.flushed` and the bytes
written into `buf`; on a propagated `zlib.error`, the bytes that had already
been written into `buf` before the error.  `rt` counts, as a ghost
instrumentation, how often the raw-deflate retry reinitialization
(`self.z = zlib.decompressobj(-zlib.MAX_WBITS)`) ran during the call. -/
inductive ReadResult where
  | ok (fp : List Sym) (z : DecompressObj) (flushed : Option (List Nat))
      (out : List Nat) (rt : Nat)
  | fail (written : List Nat) (rt : Nat)
deriving DecidableEq, Repr

/-- The `while max_length > 0` loop of `ZDecoder.readinto`, in direct
translation.  `fp` is the remaining upstream stream (`self.fp.read(n)` returns
its first `n` symbols), `acc` the bytes written into `buf` so far,
`maxLength` the Python loop's `max_length`, `retry` its `retry` local. -/
def readLoop (fp : List Sym) (z : DecompressObj) (retry : Bool)
    (flushed : Option (List Nat)) (acc : List Nat) (rt : Nat)
    (maxLength : Nat) : ReadResult :=
  if maxLength = 0 then
    ReadResult.ok fp z flushed acc rt
  else
    match flushed with
    | some fl =>
      if _hfl : fl = [] then
        ReadResult.ok fp z (some fl) acc rt
      else
        readLoop fp z retry (some (fl.drop maxLength)) (acc ++ fl.take maxLength)
          rt (maxLength - (fl.take maxLength).length)
    | none =>
      match decompress z (z.unconsumed_tail ++ fp.take Z_CHUNK) maxLength with
      | some zd =>
        if _hch : fp.take Z_CHUNK = [] then
          match zd.1.flush with
          | some fl =>
            readLoop (fp.drop Z_CHUNK) zd.1 retry (some fl) (acc ++ zd.2) rt
              (maxLength - zd.2.length)
          | none => ReadResult.fail acc rt
        else
          readLoop (fp.drop Z_CHUNK) zd.1 retry none (acc ++ zd.2) rt
            (maxLength - zd.2.length)
      | none =>
        if retry then
          match decompress (decompressobj ZFormat.rawDeflate)
              (z.unconsumed_tail ++ fp.take Z_CHUNK) maxLength with
          | some zd =>
            if _hch : fp.take Z_CHUNK = [] then
              match zd.1.flush with
              | some fl =>
                readLoop (fp.drop Z_CHUNK) zd.1 false (some fl) (acc ++ zd.2)
                  (rt + 1) (maxLength - zd.2.length)
              | none => ReadResult.fail acc (rt + 1)
            else
              readLoop (fp.drop Z_CHUNK) zd.1 false none (acc ++ zd.2) (rt + 1)
                (maxLength - zd.2.length)
          | none => ReadResult.fail acc (rt + 1)
        else ReadResult.fail acc rt
  termination_by 2 * fp.length + (if flushed.isSome then 0 else 1) + maxLength
  decreasing_by
  all_goals
    (try (have h2 : 0 < out.length := List.length_pos.mpr ‹¬out = []›))
    (try (have h5 : 0 < fp.length := List.length_pos.mpr (fun hh => ‹¬List.take Z_CHUNK fp = []› (by subst hh; simp))))
    simp [Z_CHUNK, List.length_take]
    omega

/-- Instance state of a `ZDecoder`: `self.fp` (remaining upstream symbols),
`self.z` (`None` until the first call for the generic decoder) and
`self.flushed`. -/
structure ZDecoderState where
  fp : List Sym
  z : Option DecompressObj
  flushed : Option (List Nat)
deriving DecidableEq, Repr

/-- `ZDecoder.readinto(buf)` for a buffer of length `bufLen`: on the first
ever call (`self.z is None`) initialize a plain `zlib.decompressobj()` and set
`retry = True`, otherwise `retry = False`; then run the loop. -/
def ZDecoderState.readinto (s : ZDecoderState) (bufLen : Nat) : ReadResult :=
  match s.z with
  | none => readLoop s.fp (decompressobj ZFormat.zlibContainer) true s.flushed [] 0 bufLen
  | some z => readLoop s.fp z false s.flushed [] 0 bufLen

/-- `read(bufLen)` built on `readinto` the way `io.RawIOBase.read` is: on
success the written bytes are delivered together with the new instance state;
if `readinto` raises, the exception propagates and nothing is delivered. -/
def ZDecoderState.read (s : ZDecoderState) (bufLen : Nat) :
    Option (ZDecoderState × List Nat) :=
  match s.readinto bufLen with
  | ReadResult.ok fp' z' fl' out _ => some (⟨fp', some z', fl'⟩, out)
  | ReadResult.fail _ _ => none

/-- A fresh `DeflateDecoder(fp)`: `self.z = None`, `self.flushed = None`. -/
def DeflateDecoder.init (fp : List Sym) : ZDecoderState :=
  ⟨fp, none, none⟩

/-- A fresh `GzipDecoder(fp)`:
`ZDecoder.__init__(self, fp, zlib.decompressobj(16 + zlib.MAX_WBITS))`. -/
def GzipDecoder.init (fp : List Sym) : ZDecoderState :=
  ⟨fp, some (decompressobj ZFormat.gzipContainer), none⟩

/-- Map a byte sequence to body symbols. -/
def bytesToSyms (B : List Nat) : List Sym :=
  B.map Sym.byte

/-- Compression of a byte sequence `B` in container format `f` under the
idealized codec: the container header followed by the body symbols. -/
def compress (f : ZFormat) (B : List Nat) : List Sym :=
  formatHeader f ++ bytesToSyms B

/-- Drive a decoder: call `read k` repeatedly, concatenating the results,
until a call returns no bytes; `none` if a call raises or `fuel` runs out. -/
def readAll (s : ZDecoderState) (k : Nat) : Nat → Option (List Nat)
  | 0 => none
  | fuel + 1 =>
    match s.read k with
    | none => none
    | some (s', out) =>
      if out = [] then some []
      else
        match readAll s' k fuel with
        | some rest => some (out ++ rest)
        | none => none

/-! ### Helper lemmas about the idealized codec -/

theorem symsToBytes?_bytesToSyms (X : List Nat) :
    symsToBytes? (bytesToSyms X) = some X := by
  induction X with
  | nil => rfl
  | cons x xs ih =>
    simp only [bytesToSyms, List.map_cons, symsToBytes?]
    simp only [bytesToSyms] at ih
    simp [ih]

theorem bytesToSyms_take (X : List Nat) (n : Nat) :
    bytesToSyms (X.take n) = (bytesToSyms X).take n := by
  simp [bytesToSyms]

theorem bytesToSyms_drop (X : List Nat) (n : Nat) :
    bytesToSyms (X.drop n) = (bytesToSyms X).drop n := by
  simp [bytesToSyms]

theorem bytesToSyms_append (X Y : List Nat) :
    bytesToSyms (X ++ Y) = bytesToSyms X ++ bytesToSyms Y := by
  simp [bytesToSyms]

theorem bytesToSyms_length (X : List Nat) :
    (bytesToSyms X).length = X.length := by
  simp [bytesToSyms]

/-- `decompress` on data that starts with exactly the expected header and
continues with clean body symbols: the header is consumed, at most
`maxLength` bytes come out, the rest becomes the `unconsumed_tail`. -/
theorem decompress_hdr_append (z : DecompressObj) (X : List Nat) (maxLength : Nat) :
    decompress z (z.hdr ++ bytesToSyms X) maxLength
      = some (⟨z.fmt, [], bytesToSyms (X.drop maxLength)⟩, X.take maxLength) := by
  have hm : min z.hdr.length (z.hdr ++ bytesToSyms X).length = z.hdr.length := by
    simp [List.length_append, Nat.min_eq_left, Nat.le_add_right]
  simp only [decompress, hm]
  rw [List.take_left' rfl, List.take_length, if_pos rfl, List.drop_left' rfl]
  rw [← bytesToSyms_take, symsToBytes?_bytesToSyms]
  simp [bytesToSyms_drop]

theorem take_min_length (l : List α) (n : Nat) :
    l.take (min n l.length) = l.take n := by
  rcases Nat.le_total n l.length with h | h
  · rw [Nat.min_eq_left h]
  · rw [Nat.min_eq_right h, List.take_length, List.take_of_length_le h]

theorem drop_min_length (l : List α) (n : Nat) :
    l.drop (min n l.length) = l.drop n := by
  rcases Nat.le_total n l.length with h | h
  · rw [Nat.min_eq_left h]
  · rw [Nat.min_eq_right h, List.drop_length, List.drop_eq_nil_of_le h]

/-- Glue: the part of `R.take d` beyond `m`, followed by the part of `R`
beyond `d`, is the part of `R` beyond `min m d`. -/
theorem take_drop_glue (R : List Nat) (d m : Nat) :
    (R.take d).drop m ++ R.drop d = R.drop (min m d) := by
  rcases Nat.le_total d m with h | h
  · rw [Nat.min_eq_right h]
    have h1 : (R.take d).length ≤ m := le_trans (List.length_take_le _ _) h
    rw [List.drop_eq_nil_of_le h1, List.nil_append]
  · rw [Nat.min_eq_left h]
    rw [List.drop_take]
    have h2 : R.drop d = (R.drop m).drop (d - m) := by
      rw [List.drop_drop]
      congr 1
      omega
    rw [h2, List.take_append_drop]

/-- Composition: a `take q` piece followed by what a recursive call takes from
the rest adds up to `take m`, when `q ≤ m`. -/
theorem take_comp (R : List Nat) (q m : Nat) (h : q ≤ m) :
    R.take q ++ (R.drop q).take (m - (R.take q).length) = R.take m := by
  rcases Nat.le_total q R.length with h1 | h1
  · rw [List.length_take, Nat.min_eq_left h1, ← List.take_add]
    congr 1
    omega
  · rw [List.take_of_length_le h1, List.drop_eq_nil_of_le h1]
    simp [List.take_of_length_le (le_trans h1 h)]

theorem take_rest_nil (R : List Nat) (m : Nat) :
    (R.drop m).take (m - (R.take m).length) = [] := by
  rcases Nat.le_total m R.length with h | h
  · simp [List.length_take, Nat.min_eq_left h]
  · simp [List.drop_eq_nil_of_le h]

theorem drop_rest_self (R : List Nat) (m : Nat) :
    (R.drop m).drop (m - (R.take m).length) = R.drop m := by
  rcases Nat.le_total m R.length with h | h
  · simp [List.length_take, Nat.min_eq_left h]
  · simp [List.drop_eq_nil_of_le h]

/-! ### The streaming invariant -/

/-- The invariant tying a loop configuration of `readLoop` to the remaining
decompressed output `R` it still owes its caller.  Before the flush, either
the header is fully consumed and the buffered tail plus the upstream stream
spell exactly the body symbols of `R`, or nothing has been consumed yet and
the stream starts with the full expected header (whose length is at most one
upstream chunk).  After the flush, the upstream is exhausted and the
retained flush overflow is exactly `R`. -/
def LoopInv (fp : List Sym) (z : DecompressObj) (flushed : Option (List Nat))
    (R : List Nat) : Prop :=
  match flushed with
  | none =>
      (z.hdr = [] ∧ z.unconsumed_tail ++ fp = bytesToSyms R) ∨
      (z.hdr.length ≤ Z_CHUNK ∧ z.unconsumed_tail = [] ∧
        fp = z.hdr ++ bytesToSyms R)
  | some fl => fl = R ∧ fp = []

/-- Under the invariant, the data handed to `decompress` in one loop
iteration is the expected header followed by the body symbols of a prefix
`R.take d` of the owed output, the rest of the upstream spells `R.drop d`,
and at end of upstream input the prefix is all of `R`. -/
theorem loopInv_data (fp : List Sym) (z : DecompressObj) (R : List Nat)
    (h : LoopInv fp z none R) :
    ∃ d, z.unconsumed_tail ++ fp.take Z_CHUNK = z.hdr ++ bytesToSyms (R.take d) ∧
         fp.drop Z_CHUNK = bytesToSyms (R.drop d) ∧
         (fp.take Z_CHUNK = [] → R.take d = R) := by
  rcases h with ⟨hhdr, heq⟩ | ⟨hlen, htail, heq⟩
  · refine ⟨z.unconsumed_tail.length + min Z_CHUNK fp.length, ?_, ?_, ?_⟩
    · have h1 : List.take (z.unconsumed_tail.length + min Z_CHUNK fp.length)
          z.unconsumed_tail = z.unconsumed_tail :=
        List.take_of_length_le (by omega)
      have hd : z.unconsumed_tail.length + min Z_CHUNK fp.length
          - z.unconsumed_tail.length = min Z_CHUNK fp.length := by omega
      rw [hhdr, List.nil_append, bytesToSyms_take, ← heq]
      rw [List.take_append_eq_append_take, h1, hd, take_min_length]
    · have h2 : List.drop (z.unconsumed_tail.length + min Z_CHUNK fp.length)
          z.unconsumed_tail = [] :=
        List.drop_eq_nil_of_le (by omega)
      have hd : z.unconsumed_tail.length + min Z_CHUNK fp.length
          - z.unconsumed_tail.length = min Z_CHUNK fp.length := by omega
      rw [bytesToSyms_drop, ← heq]
      rw [List.drop_append_eq_append_drop, h2, List.nil_append, hd, drop_min_length]
    · intro hnil
      rcases List.take_eq_nil_iff.mp hnil with hz | hfp
      · exact absurd hz (by simp [Z_CHUNK])
      · subst hfp
        have h1 : z.unconsumed_tail = bytesToSyms R := by
          simpa using heq
        rw [List.take_of_length_le]
        rw [h1, bytesToSyms_length]
        simp
  · refine ⟨Z_CHUNK - z.hdr.length, ?_, ?_, ?_⟩
    · rw [htail, List.nil_append, heq]
      rw [List.take_append_eq_append_take]
      rw [List.take_of_length_le hlen, bytesToSyms_take]
    · rw [heq, List.drop_append_eq_append_drop]
      rw [List.drop_eq_nil_of_le hlen, List.nil_append, bytesToSyms_drop]
    · intro hnil
      rcases List.take_eq_nil_iff.mp hnil with hz | hfp
      · exact absurd hz (by simp [Z_CHUNK])
      · rw [heq] at hfp
        have hR : bytesToSyms R = [] := (List.append_eq_nil.mp hfp).2
        have hR' : R = [] := by
          cases R with
          | nil => rfl
          | cons a l => simp [bytesToSyms] at hR
        simp [hR']

theorem drop_drop_comp (R : List Nat) (q m : Nat) (h : q ≤ m) :
    (R.drop q).drop (m - (R.take q).length) = R.drop m := by
  rcases Nat.le_total q R.length with h1 | h1
  · rw [List.length_take, Nat.min_eq_left h1, List.drop_drop]
    congr 1
    omega
  · rw [List.drop_eq_nil_of_le h1, List.drop_eq_nil_of_le (le_trans h1 h)]
    simp

theorem readLoop_zero (fp : List Sym) (z : DecompressObj) (retry : Bool)
    (flushed : Option (List Nat)) (acc : List Nat) (rt : Nat) :
    readLoop fp z retry flushed acc rt 0 = ReadResult.ok fp z flushed acc rt := by
  rw [readLoop.eq_def]
  simp

/-- Main loop correctness: under the invariant, the loop returns normally with
exactly the next `maxLength` owed bytes appended to `acc`, preserves the
invariant at the rest, keeps the engine format and the ghost retry counter,
and ends drained whenever it returns short. -/
theorem readLoop_spec : ∀ (n : Nat) (fp : List Sym) (z : DecompressObj)
    (retry : Bool) (flushed : Option (List Nat)) (acc : List Nat)
    (rt maxLength : Nat) (R : List Nat),
    2 * fp.length + (if flushed.isSome then 0 else 1) + maxLength ≤ n →
    LoopInv fp z flushed R →
    ∃ fp' z' fl',
      readLoop fp z retry flushed acc rt maxLength
        = ReadResult.ok fp' z' fl' (acc ++ R.take maxLength) rt ∧
      LoopInv fp' z' fl' (R.drop maxLength) ∧ z'.fmt = z.fmt ∧
      (R.length < maxLength → fl' = some []) := by
  intro n
  induction n with
  | zero =>
    intro fp z retry flushed acc rt maxLength R hn hinv
    have hm0 : maxLength = 0 := by omega
    subst hm0
    exact ⟨fp, z, flushed, by rw [readLoop_zero]; simp, by simpa using hinv,
      rfl, by omega⟩
  | succ n ih =>
    intro fp z retry flushed acc rt maxLength R hn hinv
    by_cases hm0 : maxLength = 0
    · subst hm0
      exact ⟨fp, z, flushed, by rw [readLoop_zero]; simp, by simpa using hinv,
        rfl, by omega⟩
    cases flushed with
    | some fl =>
      obtain ⟨hfl, hfp⟩ := hinv
      subst hfl
      by_cases hfle : fl = []
      · subst hfle
        refine ⟨fp, z, some [], ?_, ?_, rfl, fun _ => rfl⟩
        · conv_lhs => rw [readLoop.eq_def]
          simp [hm0]
        · exact ⟨by simp, hfp⟩
      · have hstep : readLoop fp z retry (some fl) acc rt maxLength
            = readLoop fp z retry (some (fl.drop maxLength))
                (acc ++ fl.take maxLength) rt
                (maxLength - (fl.take maxLength).length) := by
          conv_lhs => rw [readLoop.eq_def]
          simp [hm0, hfle]
        have hfllen : 0 < fl.length := List.length_pos.mpr hfle
        have hinv1 : LoopInv fp z (some (fl.drop maxLength)) (fl.drop maxLength) :=
          ⟨rfl, hfp⟩
        have hn0 : 2 * fp.length + 0 + maxLength ≤ n + 1 := by simpa using hn
        have hn1 : 2 * fp.length + 0
            + (maxLength - (fl.take maxLength).length) ≤ n := by
          simp only [List.length_take] at *
          omega
        obtain ⟨fp', z', fl', heq, hinv2, hfmt, hcond⟩ :=
          ih fp z retry (some (fl.drop maxLength)) (acc ++ fl.take maxLength) rt
            (maxLength - (fl.take maxLength).length) (fl.drop maxLength) hn1 hinv1
        refine ⟨fp', z', fl', ?_, ?_, hfmt, ?_⟩
        · rw [hstep, heq, List.append_assoc, take_rest_nil, List.append_nil]
        · rwa [drop_rest_self] at hinv2
        · intro hlen
          apply hcond
          simp only [List.length_drop, List.length_take]
          omega
    | none =>
      obtain ⟨d, hdata, hdrop, heof⟩ := loopInv_data fp z R hinv
      have hdec : decompress z (z.unconsumed_tail ++ fp.take Z_CHUNK) maxLength
          = some (⟨z.fmt, [], bytesToSyms ((R.take d).drop maxLength)⟩,
              (R.take d).take maxLength) := by
        rw [hdata, decompress_hdr_append]
      by_cases hch : fp.take Z_CHUNK = []
      · have htake : R.take d = R := heof hch
        rw [htake] at hdec
        rw [hch, List.append_nil] at hdec
        have hfpnil : fp = [] := by
          rcases List.take_eq_nil_iff.mp hch with hz | hfp
          · exact absurd hz (by simp [Z_CHUNK])
          · exact hfp
        have hstep : readLoop fp z retry none acc rt maxLength
            = readLoop (fp.drop Z_CHUNK)
                ⟨z.fmt, [], bytesToSyms (R.drop maxLength)⟩ retry
                (some (R.drop maxLength)) (acc ++ R.take maxLength) rt
                (maxLength - (R.take maxLength).length) := by
          conv_lhs => rw [readLoop.eq_def]
          simp [hm0, hdec, hch, DecompressObj.flush, symsToBytes?_bytesToSyms]
        have hinv1 : LoopInv (fp.drop Z_CHUNK)
            ⟨z.fmt, [], bytesToSyms (R.drop maxLength)⟩
            (some (R.drop maxLength)) (R.drop maxLength) :=
          ⟨rfl, by simp [hfpnil]⟩
        have hn0 : 2 * fp.length + 1 + maxLength ≤ n + 1 := by simpa using hn
        have hn1 : 2 * (fp.drop Z_CHUNK).length + 0
            + (maxLength - (R.take maxLength).length) ≤ n := by
          subst hfpnil
          simp only [List.length_take, List.length_drop, List.length_nil] at *
          omega
        obtain ⟨fp', z', fl', heq, hinv2, hfmt, hcond⟩ :=
          ih (fp.drop Z_CHUNK) ⟨z.fmt, [], bytesToSyms (R.drop maxLength)⟩ retry
            (some (R.drop maxLength)) (acc ++ R.take maxLength) rt
            (maxLength - (R.take maxLength).length) (R.drop maxLength) hn1 hinv1
        refine ⟨fp', z', fl', ?_, ?_, hfmt, ?_⟩
        · rw [hstep, heq, List.append_assoc, take_rest_nil, List.append_nil]
        · rwa [drop_rest_self] at hinv2
        · intro hlen
          apply hcond
          simp only [List.length_drop, List.length_take]
          omega
      · have hfpne : fp ≠ [] := by
          intro hnil
          exact hch (by simp [hnil])
        have hfplen : 0 < fp.length := List.length_pos.mpr hfpne
        have hq : (R.take d).take maxLength = R.take (min maxLength d) :=
          List.take_take maxLength d R
        have hstep : readLoop fp z retry none acc rt maxLength
            = readLoop (fp.drop Z_CHUNK)
                ⟨z.fmt, [], bytesToSyms ((R.take d).drop maxLength)⟩ retry
                none (acc ++ (R.take d).take maxLength) rt
                (maxLength - ((R.take d).take maxLength).length) := by
          conv_lhs => rw [readLoop.eq_def]
          simp [hm0, hdec, hch]
        have hinv1 : LoopInv (fp.drop Z_CHUNK)
            ⟨z.fmt, [], bytesToSyms ((R.take d).drop maxLength)⟩ none
            (R.drop (min maxLength d)) := by
          left
          refine ⟨rfl, ?_⟩
          show bytesToSyms ((R.take d).drop maxLength) ++ fp.drop Z_CHUNK
              = bytesToSyms (R.drop (min maxLength d))
          rw [hdrop, ← bytesToSyms_append, take_drop_glue]
        have hn0 : 2 * fp.length + 1 + maxLength ≤ n + 1 := by simpa using hn
        have hn1 : 2 * (fp.drop Z_CHUNK).length + 1
            + (maxLength - ((R.take d).take maxLength).length) ≤ n := by
          have hzc : Z_CHUNK = 8192 := rfl
          simp only [List.length_take, List.length_drop] at *
          omega
        obtain ⟨fp', z', fl', heq, hinv2, hfmt, hcond⟩ :=
          ih (fp.drop Z_CHUNK) ⟨z.fmt, [], bytesToSyms ((R.take d).drop maxLength)⟩
            retry none (acc ++ (R.take d).take maxLength) rt
            (maxLength - ((R.take d).take maxLength).length)
            (R.drop (min maxLength d)) hn1 hinv1
        have hqle : min maxLength d ≤ maxLength := Nat.min_le_left _ _
        refine ⟨fp', z', fl', ?_, ?_, hfmt, ?_⟩
        · rw [hstep, heq, List.append_assoc, hq, take_comp R (min maxLength d)
            maxLength hqle]
        · rw [hq, drop_drop_comp R (min maxLength d) maxLength hqle] at hinv2
          exact hinv2
        · intro hlen
          apply hcond
          simp only [List.length_drop, List.length_take, hq] at *
          omega

/-- Instance-level invariant: the decoder `s` still owes exactly the bytes `R`
to its caller. -/
def Inv (s : ZDecoderState) (R : List Nat) : Prop :=
  ∃ z, s.z = some z ∧ LoopInv s.fp z s.flushed R

theorem read_spec (s : ZDecoderState) (R : List Nat) (k : Nat) (h : Inv s R) :
    ∃ s', s.read k = some (s', R.take k) ∧ Inv s' (R.drop k) := by
  obtain ⟨z, hz, hinv⟩ := h
  obtain ⟨fp', z', fl', heq, hinv', hfmt, hcond⟩ :=
    readLoop_spec (2 * s.fp.length + 1 + k) s.fp z false s.flushed [] 0 k R
      (by rcases s.flushed <;> simp) hinv
  refine ⟨⟨fp', some z', fl'⟩, ?_, z', rfl, hinv'⟩
  rw [ZDecoderState.read, ZDecoderState.readinto, hz]
  simp [heq]

theorem readAll_spec : ∀ (fuel : Nat) (s : ZDecoderState) (R : List Nat)
    (k : Nat), 1 ≤ k → Inv s R → R.length < fuel →
    readAll s k fuel = some R := by
  intro fuel
  induction fuel with
  | zero => intro s R k _ _ h; omega
  | succ fuel ih =>
    intro s R k hk hinv hlen
    obtain ⟨s', hread, hinv'⟩ := read_spec s R k hinv
    rw [readAll, hread]
    by_cases hR : R = []
    · subst hR
      simp
    · have htk : R.take k ≠ [] := by
        intro hnil
        rcases List.take_eq_nil_iff.mp hnil with h | h
        · omega
        · exact hR h
      have hrec : readAll s' k fuel = some (R.drop k) := by
        apply ih s' (R.drop k) k hk hinv'
        have h1 : 0 < R.length := List.length_pos.mpr hR
        simp only [List.length_drop]
        omega
      simp [htk, hrec, List.take_append_drop]

theorem symsToBytes?_length : ∀ (l : List Sym) (bs : List Nat),
    symsToBytes? l = some bs → bs.length = l.length := by
  intro l
  induction l with
  | nil =>
    intro bs h
    simp only [symsToBytes?, Option.some.injEq] at h
    subst h
    rfl
  | cons a rest ih =>
    intro bs h
    cases a with
    | byte v =>
      simp only [symsToBytes?, Option.map_eq_some'] at h
      obtain ⟨bs', h1, h2⟩ := h
      subst h2
      simp [ih bs' h1]
    | corrupt => simp [symsToBytes?] at h

theorem decompress_out_length (z : DecompressObj) (data : List Sym)
    (maxLength : Nat) (zd : DecompressObj × List Nat)
    (h : decompress z data maxLength = some zd) :
    zd.2.length ≤ maxLength := by
  simp only [decompress] at h
  split at h
  · split at h
    · rename_i out hout
      cases h
      have := symsToBytes?_length _ _ hout
      simp only [this]
      exact le_trans (le_of_eq (by rw [List.length_take]))
        (Nat.min_le_left _ _)
    · exact absurd h (by simp)
  · exact absurd h (by simp)

/-- Bounded-read contract for the loop: the bytes written never exceed the
buffer, and a short result happens only with the flush state fully drained. -/
theorem readLoop_length : ∀ (n : Nat) (fp : List Sym) (z : DecompressObj)
    (retry : Bool) (flushed : Option (List Nat)) (acc : List Nat)
    (rt maxLength : Nat) (fp' : List Sym) (z' : DecompressObj)
    (fl' : Option (List Nat)) (out : List Nat) (rt' : Nat),
    2 * fp.length + (if flushed.isSome then 0 else 1) + maxLength ≤ n →
    readLoop fp z retry flushed acc rt maxLength
      = ReadResult.ok fp' z' fl' out rt' →
    out.length ≤ acc.length + maxLength ∧
    (out.length < acc.length + maxLength → fl' = some []) := by
  intro n
  induction n with
  | zero =>
    intro fp z retry flushed acc rt maxLength fp' z' fl' out rt' hn heq
    have hm0 : maxLength = 0 := by omega
    subst hm0
    rw [readLoop_zero] at heq
    cases heq
    exact ⟨by omega, by omega⟩
  | succ n ih =>
    intro fp z retry flushed acc rt maxLength fp' z' fl' out rt' hn heq
    by_cases hm0 : maxLength = 0
    · subst hm0
      rw [readLoop_zero] at heq
      cases heq
      exact ⟨by omega, by omega⟩
    cases flushed with
    | some fl =>
      have hn0 : 2 * fp.length + 0 + maxLength ≤ n + 1 := by simpa using hn
      rw [readLoop.eq_def, if_neg hm0] at heq
      by_cases hfle : fl = []
      · simp only [hfle, dite_true] at heq
        cases heq
        exact ⟨by omega, fun _ => rfl⟩
      · simp only [hfle, dite_false] at heq
        have hfllen : 0 < fl.length := List.length_pos.mpr hfle
        have hrec := ih _ _ _ _ _ _ _ _ _ _ _ _
          (show 2 * fp.length + 0 + (maxLength - (fl.take maxLength).length)
              ≤ n by
            simp only [List.length_take]
            omega) heq
        simp only [List.length_append, List.length_take] at hrec ⊢
        obtain ⟨h1, h2⟩ := hrec
        refine ⟨by omega, fun h => h2 (by omega)⟩
    | none =>
      have hn0 : 2 * fp.length + 1 + maxLength ≤ n + 1 := by simpa using hn
      have hzc : Z_CHUNK = 8192 := rfl
      rw [readLoop.eq_def, if_neg hm0] at heq
      dsimp only at heq
      split at heq
      · rename_i zd hdec
        have hlen2 := decompress_out_length _ _ _ _ hdec
        split at heq
        · rename_i hch
          have hfpnil : fp = [] := by
            rcases List.take_eq_nil_iff.mp hch with h | h
            · exact absurd h (by simp [Z_CHUNK])
            · exact h
          split at heq
          · rename_i fl2 hfl2
            have hrec := ih _ _ _ _ _ _ _ _ _ _ _ _
              (show 2 * (fp.drop Z_CHUNK).length + 0
                  + (maxLength - zd.2.length) ≤ n by
                subst hfpnil
                simp only [List.drop_nil, List.length_nil] at *
                omega) heq
            simp only [List.length_append] at hrec ⊢
            obtain ⟨h1, h2⟩ := hrec
            refine ⟨by omega, fun h => h2 (by omega)⟩
          · exact absurd heq (by simp)
        · rename_i hch
          have hfpne : fp ≠ [] := by
            intro hnil
            exact hch (by simp [hnil])
          have hfplen : 0 < fp.length := List.length_pos.mpr hfpne
          have hrec := ih _ _ _ _ _ _ _ _ _ _ _ _
            (show 2 * (fp.drop Z_CHUNK).length + 1
                + (maxLength - zd.2.length) ≤ n by
              simp only [List.length_drop]
              omega) heq
          simp only [List.length_append] at hrec ⊢
          obtain ⟨h1, h2⟩ := hrec
          refine ⟨by omega, fun h => h2 (by omega)⟩
      · split at heq
        · split at heq
          · rename_i zd2 hdec2
            have hlen2 := decompress_out_length _ _ _ _ hdec2
            split at heq
            · rename_i hch
              have hfpnil : fp = [] := by
                rcases List.take_eq_nil_iff.mp hch with h | h
                · exact absurd h (by simp [Z_CHUNK])
                · exact h
              split at heq
              · rename_i fl2 hfl2
                have hrec := ih _ _ _ _ _ _ _ _ _ _ _ _
                  (show 2 * (fp.drop Z_CHUNK).length + 0
                      + (maxLength - zd2.2.length) ≤ n by
                    subst hfpnil
                    simp only [List.drop_nil, List.length_nil] at *
                    omega) heq
                simp only [List.length_append] at hrec ⊢
                obtain ⟨h1, h2⟩ := hrec
                refine ⟨by omega, fun h => h2 (by omega)⟩
              · exact absurd heq (by simp)
            · rename_i hch
              have hfpne : fp ≠ [] := by
                intro hnil
                exact hch (by simp [hnil])
              have hfplen : 0 < fp.length := List.length_pos.mpr hfpne
              have hrec := ih _ _ _ _ _ _ _ _ _ _ _ _
                (show 2 * (fp.drop Z_CHUNK).length + 1
                    + (maxLength - zd2.2.length) ≤ n by
                  simp only [List.length_drop]
                  omega) heq
              simp only [List.length_append] at hrec ⊢
              obtain ⟨h1, h2⟩ := hrec
              refine ⟨by omega, fun h => h2 (by omega)⟩
          · exact absurd heq (by simp)
        · exact absurd heq (by simp)

/-- C1, gzip round trip: reading a gzip stream of `B` through `GzipDecoder`
with any fixed read size `k ≥ 1` until a zero-length result reconstructs
exactly `B`. -/
theorem gzip_roundtrip (B : List Nat) (k : Nat) (hk : 1 ≤ k) :
    readAll (GzipDecoder.init (compress ZFormat.gzipContainer B)) k
      (B.length + 1) = some B := by
  apply readAll_spec (B.length + 1) _ B k hk ?_ (by omega)
  refine ⟨decompressobj ZFormat.gzipContainer, rfl, Or.inr ⟨?_, rfl, rfl⟩⟩
  simp [decompressobj, formatHeader, Z_CHUNK]

/-! ### UWsgiChunkedInput -/

/-- Instance state of `UWsgiChunkedInput`: `self._internal_buffer` plus the
remaining transport chunks that `uwsgi.chunked_read()` will deliver (the
transport yields `b''` forever once the list is exhausted). -/
structure UWsgiChunkedInput where
  internal : List Nat
  chunks : List (List Nat)
deriving DecidableEq, Repr

/-- `uwsgi.chunked_read()`: the next transport chunk, empty at end-of-stream. -/
def chunked_read : List (List Nat) → List Nat × List (List Nat)
  | [] => ([], [])
  | c :: rest => (c, rest)

/-- `UWsgiChunkedInput.readinto(buf)` for a buffer of length `bufLen`: pull one
chunk if the internal buffer is empty, then hand out at most `bufLen` bytes
from its front, retaining the rest. -/
def UWsgiChunkedInput.readinto (s : UWsgiChunkedInput) (bufLen : Nat) :
    UWsgiChunkedInput × List Nat :=
  let (ib, ch) :=
    if s.internal = [] then chunked_read s.chunks
    else (s.internal, s.chunks)
  let n := min bufLen ib.length
  (⟨ib.drop n, ch⟩, ib.take n)

/-- Drive the chunk reader: `read k` repeatedly until a zero-length result. -/
def readAllChunks (s : UWsgiChunkedInput) (k : Nat) : Nat → Option (List Nat)
  | 0 => none
  | fuel + 1 =>
    match s.readinto k with
    | (s', out) =>
      if out = [] then some []
      else
        match readAllChunks s' k fuel with
        | some rest => some (out ++ rest)
        | none => none

/-- Reading through the chunk reader delivers, in order, exactly the bytes of
the internal buffer followed by all remaining transport chunks. -/
theorem readAllChunks_spec : ∀ (fuel : Nat) (internal : List Nat)
    (chunks : List (List Nat)) (k : Nat), 1 ≤ k →
    (∀ c ∈ chunks, c ≠ []) →
    (internal ++ chunks.flatten).length < fuel →
    readAllChunks ⟨internal, chunks⟩ k fuel
      = some (internal ++ chunks.flatten) := by
  intro fuel
  induction fuel with
  | zero => intro internal chunks k _ _ h; omega
  | succ fuel ih =>
    intro internal chunks k hk hc hlen
    by_cases hi : internal = []
    · subst hi
      cases chunks with
      | nil =>
        rw [readAllChunks]
        simp [UWsgiChunkedInput.readinto, chunked_read]
      | cons c rest =>
        have hcne : c ≠ [] := hc c (by simp)
        have hclen : 0 < c.length := List.length_pos.mpr hcne
        have hstep : UWsgiChunkedInput.readinto ⟨[], c :: rest⟩ k
            = (⟨c.drop (min k c.length), rest⟩, c.take (min k c.length)) := by
          rw [UWsgiChunkedInput.readinto]
          simp [chunked_read]
        have hout : c.take (min k c.length) ≠ [] := by
          intro hnil
          rcases List.take_eq_nil_iff.mp hnil with h | h
          · omega
          · exact hcne h
        have hrec : readAllChunks ⟨c.drop (min k c.length), rest⟩ k fuel
            = some (c.drop (min k c.length) ++ rest.flatten) := by
          apply ih _ _ k hk (fun x hx => hc x (by simp [hx]))
          simp only [List.length_append, List.length_drop,
            List.flatten_cons] at *
          omega
        rw [readAllChunks, hstep]
        simp only [hout, if_false, hrec]
        rw [← List.append_assoc, List.take_append_drop]
        simp
    · have hilen : 0 < internal.length := List.length_pos.mpr hi
      have hstep : UWsgiChunkedInput.readinto ⟨internal, chunks⟩ k
          = (⟨internal.drop (min k internal.length), chunks⟩,
             internal.take (min k internal.length)) := by
        rw [UWsgiChunkedInput.readinto]
        simp [hi]
      have hout : internal.take (min k internal.length) ≠ [] := by
        intro hnil
        rcases List.take_eq_nil_iff.mp hnil with h | h
        · omega
        · exact hi h
      have hrec : readAllChunks ⟨internal.drop (min k internal.length), chunks⟩
          k fuel = some (internal.drop (min k internal.length)
            ++ chunks.flatten) := by
        apply ih _ _ k hk hc
        simp only [List.length_append, List.length_drop] at *
        omega
      rw [readAllChunks, hstep]
      simp only [hout, if_false, hrec]
      rw [← List.append_assoc, List.take_append_drop]

/-- C4, chunk reassembly: for any partition of `B` into nonempty transport
chunks and any fixed read size `k ≥ 1`, reading through `UWsgiChunkedInput`
until a zero-length result reconstructs exactly `B`. -/
theorem chunk_reassembly (B : List Nat) (chunks : List (List Nat)) (k : Nat)
    (hk : 1 ≤ k) (hc : ∀ c ∈ chunks, c ≠ []) (hB : chunks.flatten = B) :
    readAllChunks ⟨[], chunks⟩ k (B.length + 1) = some B := by
  subst hB
  have h := readAllChunks_spec (chunks.flatten.length + 1) [] chunks k hk hc
    (by simp)
  simpa using h

/-! ### Drained state and the bounded-read contract -/

theorem readLoop_drained (fp : List Sym) (z : DecompressObj) (retry : Bool)
    (acc : List Nat) (rt maxLength : Nat) :
    readLoop fp z retry (some []) acc rt maxLength
      = ReadResult.ok fp z (some []) acc rt := by
  rw [readLoop.eq_def]
  by_cases h : maxLength = 0 <;> simp [h]

theorem read_drained (fp : List Sym) (z : DecompressObj) (j : Nat) :
    ZDecoderState.read ⟨fp, some z, some []⟩ j
      = some (⟨fp, some z, some []⟩, []) := by
  rw [ZDecoderState.read, ZDecoderState.readinto]
  simp [readLoop_drained]

theorem readinto_length (s : ZDecoderState) (k : Nat) (fp' : List Sym)
    (z' : DecompressObj) (fl' : Option (List Nat)) (out : List Nat) (rt' : Nat)
    (h : s.readinto k = ReadResult.ok fp' z' fl' out rt') :
    out.length ≤ k ∧ (out.length < k → fl' = some []) := by
  rw [ZDecoderState.readinto] at h
  have hb : 2 * s.fp.length + (if s.flushed.isSome then 0 else 1) + k
      ≤ 2 * s.fp.length + 1 + k := by
    rcases s.flushed <;> simp
  split at h
  · have := readLoop_length (2 * s.fp.length + 1 + k) _ _ _ _ _ _ _ _ _ _ _ _
      hb h
    simpa using this
  · have := readLoop_length (2 * s.fp.length + 1 + k) _ _ _ _ _ _ _ _ _ _ _ _
      hb h
    simpa using this

theorem read_length (s : ZDecoderState) (k : Nat) (s' : ZDecoderState)
    (out : List Nat) (h : s.read k = some (s', out)) :
    out.length ≤ k ∧
    (out.length < k → ∀ j, s'.read j = some (s', [])) := by
  rw [ZDecoderState.read] at h
  rcases hri : s.readinto k with ⟨fp', z', fl', out1, rt'⟩ | ⟨w, r⟩
  · rw [hri] at h
    simp only [Option.some.injEq, Prod.mk.injEq] at h
    obtain ⟨hs', hout⟩ := h
    subst hout
    obtain ⟨h1, h2⟩ := readinto_length s k _ _ _ _ _ hri
    refine ⟨h1, fun hlt j => ?_⟩
    have hfl : fl' = some [] := h2 hlt
    subst hfl
    rw [← hs']
    exact read_drained fp' z' j
  · rw [hri] at h
    simp at h

/-- C6, EOF idempotence: once a `read` call with a positive buffer size
returns length 0, every later `read` call on the resulting decoder state
returns length 0 again, leaves the state unchanged and raises no error. -/
theorem eof_idempotent (s : ZDecoderState) (k : Nat) (s' : ZDecoderState)
    (hk : 1 ≤ k) (h : s.read k = some (s', [])) :
    ∀ j, s'.read j = some (s', []) := by
  have := read_length s k s' [] h
  exact this.2 (by simpa using hk)

/-- Witness for C6 at a concrete drained gzip decoder state. -/
theorem eof_idempotent_witness :
    ZDecoderState.read ⟨[], some (decompressobj ZFormat.gzipContainer), some []⟩ 5
      = some (⟨[], some (decompressobj ZFormat.gzipContainer), some []⟩, []) :=
  eof_idempotent ⟨[], some (decompressobj ZFormat.gzipContainer), some []⟩ 1
    ⟨[], some (decompressobj ZFormat.gzipContainer), some []⟩ (by decide)
    (read_drained [] (decompressobj ZFormat.gzipContainer) 1) 5

theorem uwsgi_readinto_length (s : UWsgiChunkedInput) (k : Nat) :
    ((s.readinto k).2).length ≤ k := by
  rw [UWsgiChunkedInput.readinto]
  by_cases hi : s.internal = []
  · rcases s.chunks with _ | ⟨c, rest⟩ <;>
      simp [hi, chunked_read, List.length_take]
  · simp [hi, List.length_take]

/-- C5 amended: every read returns at most `max_length` bytes on both
readers; for the `ZDecoder` a short read happens only at true end-of-stream
(all later reads return length 0), while the `UWsgiChunkedInput` may return
a short read whenever a transport chunk is smaller than the request. -/
theorem bounded_read_contract :
    (∀ (s : ZDecoderState) (k : Nat) (s' : ZDecoderState) (out : List Nat),
        s.read k = some (s', out) →
        out.length ≤ k ∧
        (out.length < k → ∀ j, s'.read j = some (s', []))) ∧
    (∀ (s : UWsgiChunkedInput) (k : Nat), ((s.readinto k).2).length ≤ k) :=
  ⟨fun s k s' out h => read_length s k s' out h,
   fun s k => uwsgi_readinto_length s k⟩

/-- Counterexample to C5 as stated: the chunk reader returns a short read
(2 bytes for a 4-byte request) while more data is still available (the next
read returns a nonempty result). -/
theorem bounded_read_cex :
    UWsgiChunkedInput.readinto ⟨[], [[1, 2], [3]]⟩ 4 = (⟨[], [[3]]⟩, [1, 2]) ∧
    UWsgiChunkedInput.readinto ⟨[], [[3]]⟩ 4 = (⟨[], []⟩, [3]) := by
  decide

/-- Witness for the amended C5 at a concrete state. -/
theorem bounded_read_contract_witness :
    ZDecoderState.read ⟨[], some (decompressobj ZFormat.zlibContainer), some []⟩ 3
        = some (⟨[], some (decompressobj ZFormat.zlibContainer), some []⟩, []) ∧
    ZDecoderState.read ⟨[], some (decompressobj ZFormat.zlibContainer), some []⟩ 7
        = some (⟨[], some (decompressobj ZFormat.zlibContainer), some []⟩, []) :=
  ⟨read_drained [] (decompressobj ZFormat.zlibContainer) 3,
   (bounded_read_contract.1 ⟨[], some (decompressobj ZFormat.zlibContainer), some []⟩
      3 ⟨[], some (decompressobj ZFormat.zlibContainer), some []⟩ []
      (read_drained [] (decompressobj ZFormat.zlibContainer) 3)).2 (by decide) 7⟩

/-- Witness for C1 at a concrete payload and read size. -/
theorem gzip_roundtrip_witness :
    readAll (GzipDecoder.init (compress ZFormat.gzipContainer [104, 105])) 7
      ([104, 105].length + 1) = some [104, 105] :=
  gzip_roundtrip [104, 105] 7 (by decide)

/-- Witness for C4 at a concrete partition and read size. -/
theorem chunk_reassembly_witness :
    readAllChunks ⟨[], [[1, 2], [3, 4, 5], [6]]⟩ 4
      ([1, 2, 3, 4, 5, 6].length + 1) = some [1, 2, 3, 4, 5, 6] :=
  chunk_reassembly [1, 2, 3, 4, 5, 6] [[1, 2], [3, 4, 5], [6]] 4 (by decide)
    (by decide) (by decide)

/-! ### The raw-deflate fallback -/

theorem head?_take {α} (n : Nat) (l : List α) (hn : n ≠ 0) :
    (l.take n).head? = l.head? := by
  cases l with
  | nil => simp
  | cons a t =>
    cases n with
    | zero => exact absurd rfl hn
    | succ m => rfl

theorem bytesToSyms_eq_nil_iff (X : List Nat) :
    bytesToSyms X = [] ↔ X = [] := by
  simp [bytesToSyms]

theorem bytesToSyms_head? (X : List Nat) :
    (bytesToSyms X).head? = X.head?.map Sym.byte := by
  cases X <;> rfl

/-- A generic decoder's first decompression attempt fails on data that does
not open with the zlib container header byte. -/
theorem decompress_zlib_mismatch (data : List Sym) (mx : Nat)
    (hne : data ≠ []) (hhead : data.head? ≠ some (Sym.byte 120)) :
    decompress (decompressobj ZFormat.zlibContainer) data mx = none := by
  cases data with
  | nil => exact absurd rfl hne
  | cons a l =>
    have ha : a ≠ Sym.byte 120 := by
      intro h
      exact hhead (by simp [h])
    have hm : min (decompressobj ZFormat.zlibContainer).hdr.length
        (a :: l).length = 1 := by
      simp [decompressobj, formatHeader]
    simp only [decompress, hm]
    rw [if_neg]
    intro hc
    simp [decompressobj, formatHeader] at hc
    exact ha hc

theorem decompress_raw (X : List Nat) (mx : Nat) :
    decompress (decompressobj ZFormat.rawDeflate) (bytesToSyms X) mx
      = some (⟨ZFormat.rawDeflate, [], bytesToSyms (X.drop mx)⟩, X.take mx) := by
  have h := decompress_hdr_append (decompressobj ZFormat.rawDeflate) X mx
  simpa [decompressobj, formatHeader] using h

/-- First `readinto` on a fresh generic decoder over a headerless raw-deflate
stream: the zlib attempt fails at once, the raw-deflate fallback engages on
this very first call (ghost retry count 1), the call succeeds with the first
`k` payload bytes, the engine is now the raw-deflate one, and the resulting
state owes exactly the rest of the payload. -/
theorem deflate_first_readinto (B : List Nat) (k : Nat) (hk : 1 ≤ k)
    (hne : B ≠ []) (hhead : B.head? ≠ some 120) :
    ∃ fp' z' fl',
      (DeflateDecoder.init (bytesToSyms B)).readinto k
        = ReadResult.ok fp' z' fl' (B.take k) 1 ∧
      z'.fmt = ZFormat.rawDeflate ∧
      Inv ⟨fp', some z', fl'⟩ (B.drop k) := by
  have htkne : B.take Z_CHUNK ≠ [] := by
    intro hnil
    rcases List.take_eq_nil_iff.mp hnil with h | h
    · exact absurd h (by simp [Z_CHUNK])
    · exact hne h
  have hchne : bytesToSyms (B.take Z_CHUNK) ≠ [] := by
    rw [Ne, bytesToSyms_eq_nil_iff]
    exact htkne
  have hchne' : (bytesToSyms B).take Z_CHUNK ≠ [] := by
    rw [← bytesToSyms_take]
    exact hchne
  have hchhead : (bytesToSyms (B.take Z_CHUNK)).head? ≠ some (Sym.byte 120) := by
    rw [bytesToSyms_head?, head?_take _ _ (by simp [Z_CHUNK])]
    intro h
    rcases hB : B.head? with _ | b
    · rw [hB] at h
      simp at h
    · rw [hB] at h
      simp only [Option.map_some', Option.some.injEq, Sym.byte.injEq] at h
      exact hhead (by rw [hB, h])
  have ht : (decompressobj ZFormat.zlibContainer).unconsumed_tail
      ++ (bytesToSyms B).take Z_CHUNK = bytesToSyms (B.take Z_CHUNK) := by
    simp [decompressobj, bytesToSyms_take]
  have hdec1 : decompress (decompressobj ZFormat.zlibContainer)
      (bytesToSyms (B.take Z_CHUNK)) k = none :=
    decompress_zlib_mismatch _ k hchne hchhead
  have hdec2 := decompress_raw (B.take Z_CHUNK) k
  have hstep : (DeflateDecoder.init (bytesToSyms B)).readinto k
      = readLoop ((bytesToSyms B).drop Z_CHUNK)
          ⟨ZFormat.rawDeflate, [], bytesToSyms ((B.take Z_CHUNK).drop k)⟩ false
          none ((B.take Z_CHUNK).take k) 1
          (k - ((B.take Z_CHUNK).take k).length) := by
    show readLoop (bytesToSyms B) (decompressobj ZFormat.zlibContainer) true
        none [] 0 k = _
    conv_lhs => rw [readLoop.eq_def]
    rw [if_neg (by omega : ¬k = 0)]
    rw [ht, hdec1, hdec2]
    simp [hchne']
  set q := min k Z_CHUNK with hqdef
  have hq : (B.take Z_CHUNK).take k = B.take q := by
    rw [List.take_take]
  have hinv1 : LoopInv ((bytesToSyms B).drop Z_CHUNK)
      ⟨ZFormat.rawDeflate, [], bytesToSyms ((B.take Z_CHUNK).drop k)⟩ none
      (B.drop q) := by
    left
    refine ⟨rfl, ?_⟩
    show bytesToSyms ((B.take Z_CHUNK).drop k) ++ (bytesToSyms B).drop Z_CHUNK
        = bytesToSyms (B.drop q)
    rw [← bytesToSyms_drop, ← bytesToSyms_append, take_drop_glue]
  obtain ⟨fp', z', fl', heq, hinv', hfmt, hcond⟩ :=
    readLoop_spec (2 * ((bytesToSyms B).drop Z_CHUNK).length + 1
        + (k - ((B.take Z_CHUNK).take k).length))
      ((bytesToSyms B).drop Z_CHUNK)
      ⟨ZFormat.rawDeflate, [], bytesToSyms ((B.take Z_CHUNK).drop k)⟩ false none
      ((B.take Z_CHUNK).take k) 1 (k - ((B.take Z_CHUNK).take k).length)
      (B.drop q) (by simp) hinv1
  have hqle : q ≤ k := Nat.min_le_left _ _
  refine ⟨fp', z', fl', ?_, hfmt, z', rfl, ?_⟩
  · rw [hstep, heq, hq, take_comp B q k hqle]
  · rw [hq, drop_drop_comp B q k hqle] at hinv'
    exact hinv'

/-- Concrete run: first read on a raw stream whose second symbol is corrupt.
The fallback engages, one byte is delivered, the corrupt symbol stays
buffered. -/
theorem raw_example_first_readinto :
    (DeflateDecoder.init [Sym.byte 5, Sym.corrupt]).readinto 1
      = ReadResult.ok [] ⟨ZFormat.rawDeflate, [], [Sym.corrupt]⟩ none [5] 1 := by
  show readLoop [Sym.byte 5, Sym.corrupt] (decompressobj ZFormat.zlibContainer)
      true none [] 0 1 = _
  have hch : List.take Z_CHUNK [Sym.byte 5, Sym.corrupt]
      = [Sym.byte 5, Sym.corrupt] := List.take_of_length_le (by simp [Z_CHUNK])
  have hdr : List.drop Z_CHUNK [Sym.byte 5, Sym.corrupt] = ([] : List Sym) :=
    List.drop_eq_nil_of_le (by simp [Z_CHUNK])
  have hd1 : decompress ⟨ZFormat.zlibContainer,
      formatHeader ZFormat.zlibContainer, []⟩ [Sym.byte 5, Sym.corrupt] 1
      = none := by decide
  have hd2 : decompress ⟨ZFormat.rawDeflate, formatHeader ZFormat.rawDeflate,
      []⟩ [Sym.byte 5, Sym.corrupt] 1
      = some (⟨ZFormat.rawDeflate, [], [Sym.corrupt]⟩, [5]) := by decide
  have h1 : readLoop [Sym.byte 5, Sym.corrupt]
      (decompressobj ZFormat.zlibContainer) true none [] 0 1
      = readLoop [] ⟨ZFormat.rawDeflate, [], [Sym.corrupt]⟩ false none [5] 1 0 := by
    conv_lhs => rw [readLoop.eq_def]
    simp [hch, hdr, hd1, hd2, decompressobj]
  rw [h1, readLoop_zero]

theorem raw_example_first_read :
    ZDecoderState.read (DeflateDecoder.init [Sym.byte 5, Sym.corrupt]) 1
      = some (⟨[], some ⟨ZFormat.rawDeflate, [], [Sym.corrupt]⟩, none⟩, [5]) := by
  rw [ZDecoderState.read, raw_example_first_readinto]

/-- Concrete run: the second call hits the corrupt symbol; retry is no longer
available, so the format error propagates (no further retry, ghost count 0). -/
theorem raw_example_second_readinto :
    ZDecoderState.readinto ⟨[], some ⟨ZFormat.rawDeflate, [], [Sym.corrupt]⟩,
      none⟩ 1 = ReadResult.fail [] 0 := by
  show readLoop [] ⟨ZFormat.rawDeflate, [], [Sym.corrupt]⟩ false none [] 0 1 = _
  rw [readLoop.eq_def]
  decide

/-! ### Retry discipline -/

/-- The ghost retry counter carried by a call result. -/
def ReadResult.retries : ReadResult → Nat
  | ReadResult.ok _ _ _ _ rt => rt
  | ReadResult.fail _ rt => rt

/-- The loop performs at most one raw-deflate reinitialization, and none at
all when `retry` is already exhausted. -/
theorem readLoop_retries_le : ∀ (n : Nat) (fp : List Sym) (z : DecompressObj)
    (retry : Bool) (flushed : Option (List Nat)) (acc : List Nat)
    (rt maxLength : Nat),
    2 * fp.length + (if flushed.isSome then 0 else 1) + maxLength ≤ n →
    (readLoop fp z retry flushed acc rt maxLength).retries
      ≤ rt + (if retry then 1 else 0) := by
  intro n
  induction n with
  | zero =>
    intro fp z retry flushed acc rt maxLength hn
    have hm0 : maxLength = 0 := by omega
    subst hm0
    rw [readLoop_zero]
    rcases retry <;> simp [ReadResult.retries]
  | succ n ih =>
    intro fp z retry flushed acc rt maxLength hn
    by_cases hm0 : maxLength = 0
    · subst hm0
      rw [readLoop_zero]
      rcases retry <;> simp [ReadResult.retries]
    cases flushed with
    | some fl =>
      have hn0 : 2 * fp.length + 0 + maxLength ≤ n + 1 := by simpa using hn
      rw [readLoop.eq_def, if_neg hm0]
      by_cases hfle : fl = []
      · simp only [hfle, dite_true]
        rcases retry <;> simp [ReadResult.retries]
      · simp only [hfle, dite_false]
        have hfllen : 0 < fl.length := List.length_pos.mpr hfle
        apply ih
        simp only [Option.isSome_some, if_true, List.length_take]
        omega
    | none =>
      have hn0 : 2 * fp.length + 1 + maxLength ≤ n + 1 := by simpa using hn
      have hzc : Z_CHUNK = 8192 := rfl
      rw [readLoop.eq_def, if_neg hm0]
      dsimp only
      rcases hdec : decompress z (z.unconsumed_tail ++ fp.take Z_CHUNK)
          maxLength with _ | zd
      · rcases hr : retry with _ | _
        · simp [ReadResult.retries]
        · dsimp only [if_true]
          rcases hdec2 : decompress (decompressobj ZFormat.rawDeflate)
              (z.unconsumed_tail ++ fp.take Z_CHUNK) maxLength with _ | zd2
          · simp [ReadResult.retries]
          · by_cases hch : fp.take Z_CHUNK = []
            · have hfpnil : fp = [] := by
                rcases List.take_eq_nil_iff.mp hch with h | h
                · exact absurd h (by simp [Z_CHUNK])
                · exact h
              simp only [hch, dite_true]
              rcases hfl2 : zd2.1.flush with _ | fl2
              · simp [ReadResult.retries]
              · have := ih (fp.drop Z_CHUNK) zd2.1 false (some fl2)
                  (acc ++ zd2.2) (rt + 1) (maxLength - zd2.2.length)
                  (by subst hfpnil; simp at *; omega)
                simpa using this
            · simp only [hch, dite_false]
              have hfplen : 0 < fp.length :=
                List.length_pos.mpr (fun hh => hch (by simp [hh]))
              have := ih (fp.drop Z_CHUNK) zd2.1 false none (acc ++ zd2.2)
                (rt + 1) (maxLength - zd2.2.length)
                (by simp only [List.length_drop]; omega)
              simpa using this
      · by_cases hch : fp.take Z_CHUNK = []
        · have hfpnil : fp = [] := by
            rcases List.take_eq_nil_iff.mp hch with h | h
            · exact absurd h (by simp [Z_CHUNK])
            · exact h
          simp only [hch, dite_true]
          rcases hfl2 : zd.1.flush with _ | fl2
          · rcases retry <;> simp [ReadResult.retries]
          · apply ih
            subst hfpnil
            simp at *
            omega
        · simp only [hch, dite_false]
          have hfplen : 0 < fp.length :=
            List.length_pos.mpr (fun hh => hch (by simp [hh]))
          apply ih
          simp only [Option.isSome_none, List.length_drop, Bool.false_eq_true,
            if_false]
          omega

theorem bytesToSyms_replicate (n v : Nat) :
    bytesToSyms (List.replicate n v) = List.replicate n (Sym.byte v) := by
  simp [bytesToSyms]

/-- C2, raw-deflate recovery: a headerless deflate stream fed to the generic
decoder decompresses correctly, with the raw-deflate fallback engaging on the
very first call.  Once the fallback has been used the engine is set (`self.z`
is not None), so on EVERY such instance, for every call, no further retry can
occur (ghost retry count 0) and a failing call propagates the error to the
caller (read delivers nothing); at the loop level, with the retry consumed,
any format error at any point of any call aborts at once with exactly the
bytes written so far, instead of reinitializing the engine.  A concrete
post-fallback run illustrates the propagation. -/
theorem deflate_fallback_spec :
    (∀ (B : List Nat) (k : Nat), 1 ≤ k → B ≠ [] → B.head? ≠ some 120 →
        readAll (DeflateDecoder.init (bytesToSyms B)) k (B.length + 1)
          = some B ∧
        ∃ fp' z' fl',
          (DeflateDecoder.init (bytesToSyms B)).readinto k
            = ReadResult.ok fp' z' fl' (B.take k) 1 ∧
          z'.fmt = ZFormat.rawDeflate) ∧
    (∀ (s : ZDecoderState) (k : Nat) (z : DecompressObj), s.z = some z →
        (s.readinto k).retries = 0 ∧
        ∀ (w : List Nat) (r : Nat),
          s.readinto k = ReadResult.fail w r → s.read k = none) ∧
    (∀ (fp : List Sym) (z : DecompressObj) (acc : List Nat)
        (rt maxLength : Nat), ¬maxLength = 0 →
        decompress z (z.unconsumed_tail ++ fp.take Z_CHUNK) maxLength = none →
        readLoop fp z false none acc rt maxLength = ReadResult.fail acc rt) ∧
    (ZDecoderState.read (DeflateDecoder.init [Sym.byte 5, Sym.corrupt]) 1
        = some (⟨[], some ⟨ZFormat.rawDeflate, [], [Sym.corrupt]⟩, none⟩, [5]) ∧
     ZDecoderState.readinto ⟨[], some ⟨ZFormat.rawDeflate, [], [Sym.corrupt]⟩,
        none⟩ 1 = ReadResult.fail [] 0) := by
  refine ⟨?_, ?_, ?_, raw_example_first_read, raw_example_second_readinto⟩
  · intro B k hk hne hhead
    obtain ⟨fp', z', fl', heq, hfmt, hinv⟩ :=
      deflate_first_readinto B k hk hne hhead
    constructor
    · have hread : (DeflateDecoder.init (bytesToSyms B)).read k
          = some (⟨fp', some z', fl'⟩, B.take k) := by
        rw [ZDecoderState.read, heq]
      rw [readAll, hread]
      have hBlen : 0 < B.length := List.length_pos.mpr hne
      have htk : B.take k ≠ [] := by
        intro hnil
        rcases List.take_eq_nil_iff.mp hnil with h | h
        · omega
        · exact hne h
      have hrec : readAll ⟨fp', some z', fl'⟩ k B.length = some (B.drop k) := by
        apply readAll_spec B.length _ _ k hk hinv
        simp only [List.length_drop]
        omega
      simp [htk, hrec]
    · exact ⟨fp', z', fl', heq, hfmt⟩
  · intro s k z hz
    refine ⟨?_, ?_⟩
    · rw [ZDecoderState.readinto, hz]
      have h := readLoop_retries_le (2 * s.fp.length + 1 + k) s.fp z false
        s.flushed [] 0 k (by rcases s.flushed <;> simp)
      simpa using h
    · intro w r h
      rw [ZDecoderState.read, h]
  · intro fp z acc rt maxLength hm hdec
    conv_lhs => rw [readLoop.eq_def]
    simp [hm, hdec]

/-- Witness for C2: the round trip at a concrete headerless payload, and the
universal post-fallback conjunct applied at the concrete post-fallback state,
where the second format error makes the read deliver nothing. -/
theorem deflate_fallback_spec_witness :
    readAll (DeflateDecoder.init (bytesToSyms [5, 6])) 1 ([5, 6].length + 1)
      = some [5, 6] ∧
    ZDecoderState.read ⟨[], some ⟨ZFormat.rawDeflate, [], [Sym.corrupt]⟩,
      none⟩ 1 = none :=
  ⟨(deflate_fallback_spec.1 [5, 6] 1 (by decide) (by decide) (by decide)).1,
   (deflate_fallback_spec.2.1
      ⟨[], some ⟨ZFormat.rawDeflate, [], [Sym.corrupt]⟩, none⟩ 1
      ⟨ZFormat.rawDeflate, [], [Sym.corrupt]⟩ rfl).2 [] 0
      raw_example_second_readinto⟩

/-- C3 amended: at most one container-format retry ever happens per call; no
retry at all is possible once the engine exists (`self.z` is set), which
covers every call after the first and the gzip entry point (whose constructor
sets the engine); every successful read leaves the engine set.  The retry is
therefore confined to the very first read call of the generic decoder — but
within that first call it can fire after output has already been produced
(see the counterexample). -/
theorem retry_discipline :
    (∀ (s : ZDecoderState) (k : Nat) (z : DecompressObj), s.z = some z →
        (s.readinto k).retries = 0) ∧
    (∀ (s : ZDecoderState) (k : Nat), (s.readinto k).retries ≤ 1) ∧
    (∀ (s : ZDecoderState) (k : Nat) (s' : ZDecoderState) (out : List Nat),
        s.read k = some (s', out) → s'.z.isSome = true) ∧
    (∀ (fp : List Sym), ((GzipDecoder.init fp).z).isSome = true) := by
  refine ⟨?_, ?_, ?_, fun fp => rfl⟩
  · intro s k z hz
    rw [ZDecoderState.readinto, hz]
    have h := readLoop_retries_le (2 * s.fp.length + 1 + k) s.fp z false
      s.flushed [] 0 k (by rcases s.flushed <;> simp)
    simpa using h
  · intro s k
    rcases hz : s.z with _ | z
    · rw [ZDecoderState.readinto, hz]
      have h := readLoop_retries_le (2 * s.fp.length + 1 + k) s.fp
        (decompressobj ZFormat.zlibContainer) true s.flushed [] 0 k
        (by rcases s.flushed <;> simp)
      simpa using h
    · rw [ZDecoderState.readinto, hz]
      show (readLoop s.fp z false s.flushed [] 0 k).retries ≤ 1
      have h := readLoop_retries_le (2 * s.fp.length + 1 + k) s.fp z false
        s.flushed [] 0 k (by rcases s.flushed <;> simp)
      simp at h
      omega
  · intro s k s' out h
    rw [ZDecoderState.read] at h
    rcases hri : s.readinto k with ⟨fp', z', fl', out1, rt'⟩ | ⟨w, r⟩ <;>
      rw [hri] at h
    · simp only [Option.some.injEq, Prod.mk.injEq] at h
      rw [← h.1]
      rfl
    · simp at h

/-- Witness for the amended C3 at a concrete state with an existing engine. -/
theorem retry_discipline_witness :
    (ZDecoderState.readinto ⟨[], some (decompressobj ZFormat.gzipContainer),
      some []⟩ 3).retries = 0 :=
  retry_discipline.1 ⟨[], some (decompressobj ZFormat.gzipContainer), some []⟩
    3 (decompressobj ZFormat.gzipContainer) rfl

/-- One loop iteration, mid-stream, successful decompression. -/
theorem readLoop_step_ok (fp : List Sym) (z : DecompressObj) (retry : Bool)
    (acc : List Nat) (rt maxLength : Nat) (zd : DecompressObj × List Nat)
    (hm : ¬maxLength = 0) (hch : ¬fp.take Z_CHUNK = [])
    (hdec : decompress z (z.unconsumed_tail ++ fp.take Z_CHUNK) maxLength
      = some zd) :
    readLoop fp z retry none acc rt maxLength
      = readLoop (fp.drop Z_CHUNK) zd.1 retry none (acc ++ zd.2) rt
          (maxLength - zd.2.length) := by
  conv_lhs => rw [readLoop.eq_def]
  simp [hm, hch, hdec]

/-- One loop iteration, mid-stream: the first attempt fails, the raw-deflate
retry succeeds. -/
theorem readLoop_step_retry_ok (fp : List Sym) (z : DecompressObj)
    (acc : List Nat) (rt maxLength : Nat) (zd : DecompressObj × List Nat)
    (hm : ¬maxLength = 0) (hch : ¬fp.take Z_CHUNK = [])
    (hdec1 : decompress z (z.unconsumed_tail ++ fp.take Z_CHUNK) maxLength
      = none)
    (hdec2 : decompress (decompressobj ZFormat.rawDeflate)
      (z.unconsumed_tail ++ fp.take Z_CHUNK) maxLength = some zd) :
    readLoop fp z true none acc rt maxLength
      = readLoop (fp.drop Z_CHUNK) zd.1 false none (acc ++ zd.2) (rt + 1)
          (maxLength - zd.2.length) := by
  conv_lhs => rw [readLoop.eq_def]
  simp [hm, hch, hdec1, hdec2]

/-- One loop iteration: both the attempt and the retry fail, the error
propagates with the bytes written so far left undelivered. -/
theorem readLoop_step_retry_fail (fp : List Sym) (z : DecompressObj)
    (acc : List Nat) (rt maxLength : Nat)
    (hm : ¬maxLength = 0)
    (hdec1 : decompress z (z.unconsumed_tail ++ fp.take Z_CHUNK) maxLength
      = none)
    (hdec2 : decompress (decompressobj ZFormat.rawDeflate)
      (z.unconsumed_tail ++ fp.take Z_CHUNK) maxLength = none) :
    readLoop fp z true none acc rt maxLength = ReadResult.fail acc (rt + 1) := by
  conv_lhs => rw [readLoop.eq_def]
  simp [hm, hdec1, hdec2]

/-- Counterexample to C3 as stated: on the very first call, after the engine
has already produced and written 8191 output bytes, a corrupt symbol in the
next upstream chunk still triggers the raw-deflate retry (ghost count 1), so
the retry is not confined to the time before any output was produced. -/
theorem retry_after_output_cex :
    (DeflateDecoder.init (Sym.byte 120 ::
        (List.replicate 8191 (Sym.byte 0) ++ [Sym.corrupt]))).readinto 9000
      = ReadResult.fail (List.replicate 8191 0) 1 ∧
    List.replicate 8191 0 ≠ ([] : List Nat) := by
  constructor
  · show readLoop (Sym.byte 120 ::
        (List.replicate 8191 (Sym.byte 0) ++ [Sym.corrupt]))
        (decompressobj ZFormat.zlibContainer) true none [] 0 9000 = _
    have hsplit : Sym.byte 120 :: (List.replicate 8191 (Sym.byte 0)
        ++ [Sym.corrupt])
        = (Sym.byte 120 :: List.replicate 8191 (Sym.byte 0))
          ++ [Sym.corrupt] := rfl
    have hlen1 : (Sym.byte 120 :: List.replicate 8191 (Sym.byte 0)).length
        = Z_CHUNK := by
      simp only [List.length_cons, List.length_replicate, Z_CHUNK]
    have hf1 : List.take Z_CHUNK (Sym.byte 120 ::
        (List.replicate 8191 (Sym.byte 0) ++ [Sym.corrupt]))
        = Sym.byte 120 :: List.replicate 8191 (Sym.byte 0) := by
      rw [hsplit]
      exact List.take_left' hlen1
    have hf2 : List.drop Z_CHUNK (Sym.byte 120 ::
        (List.replicate 8191 (Sym.byte 0) ++ [Sym.corrupt]))
        = [Sym.corrupt] := by
      rw [hsplit]
      exact List.drop_left' hlen1
    have hd3 : decompress (decompressobj ZFormat.zlibContainer)
        (Sym.byte 120 :: List.replicate 8191 (Sym.byte 0)) 9000
        = some (⟨ZFormat.zlibContainer, [], []⟩, List.replicate 8191 0) := by
      have h := decompress_hdr_append (decompressobj ZFormat.zlibContainer)
        (List.replicate 8191 0) 9000
      rw [show (decompressobj ZFormat.zlibContainer).hdr = [Sym.byte 120]
        from rfl] at h
      rw [show (decompressobj ZFormat.zlibContainer).fmt
        = ZFormat.zlibContainer from rfl] at h
      rw [bytesToSyms_replicate, List.singleton_append, List.take_replicate,
        List.drop_replicate] at h
      rw [show min 9000 8191 = 8191 from by norm_num] at h
      rw [show (8191 - 9000 : Nat) = 0 from by norm_num] at h
      rw [List.replicate_zero] at h
      rw [show bytesToSyms [] = [] from rfl] at h
      exact h
    have hstep1 := readLoop_step_ok
      (Sym.byte 120 :: (List.replicate 8191 (Sym.byte 0) ++ [Sym.corrupt]))
      (decompressobj ZFormat.zlibContainer) true [] 0 9000
      (⟨ZFormat.zlibContainer, [], []⟩, List.replicate 8191 0)
      (by norm_num)
      (by rw [hf1]; exact List.cons_ne_nil _ _)
      (by rw [show (decompressobj ZFormat.zlibContainer).unconsumed_tail = []
            from rfl, List.nil_append, hf1]
          exact hd3)
    rw [hstep1, hf2]
    rw [show ([] : List Nat) ++ List.replicate 8191 0 = List.replicate 8191 0
      from List.nil_append _]
    rw [show (9000 - (List.replicate 8191 0).length : Nat) = 809
      from by rw [List.length_replicate]]
    have hch2 : List.take Z_CHUNK [Sym.corrupt] = [Sym.corrupt] :=
      List.take_of_length_le (by simp [Z_CHUNK])
    have hd4 : decompress ⟨ZFormat.zlibContainer, [], []⟩ [Sym.corrupt] 809
        = none := by decide
    have hd5 : decompress (decompressobj ZFormat.rawDeflate) [Sym.corrupt] 809
        = none := by decide
    have hstep2 := readLoop_step_retry_fail [Sym.corrupt]
      ⟨ZFormat.zlibContainer, [], []⟩ (List.replicate 8191 0) 0 809
      (by norm_num)
      (by rw [show (DecompressObj.mk ZFormat.zlibContainer [] []).unconsumed_tail = []
            from rfl, List.nil_append, hch2]
          exact hd4)
      (by rw [show (DecompressObj.mk ZFormat.zlibContainer [] []).unconsumed_tail = []
            from rfl, List.nil_append, hch2]
          exact hd5)
    rw [hstep2]
  · intro h
    have := congrArg List.length h
    simp only [List.length_replicate, List.length_nil] at this
    omega

/-! ### Buffered-state growth -/

/-- Counterexample to C7 as stated: two `read(1)` calls against a 16384-byte
compressed stream leave 16381 compressed symbols buffered in the
`unconsumed_tail` — nearly two `Z_CHUNK`s, because every loop iteration pulls
a fresh chunk even when the tail is nonempty. -/
theorem buffer_unbounded_cex :
    ZDecoderState.read (DeflateDecoder.init
        (Sym.byte 120 :: List.replicate 16383 (Sym.byte 0))) 1
      = some (⟨List.replicate 8192 (Sym.byte 0),
          some ⟨ZFormat.zlibContainer, [], List.replicate 8190 (Sym.byte 0)⟩,
          none⟩, [0]) ∧
    ZDecoderState.read ⟨List.replicate 8192 (Sym.byte 0),
        some ⟨ZFormat.zlibContainer, [], List.replicate 8190 (Sym.byte 0)⟩,
        none⟩ 1
      = some (⟨[], some ⟨ZFormat.zlibContainer, [],
          List.replicate 16381 (Sym.byte 0)⟩, none⟩, [0]) ∧
    Z_CHUNK < (List.replicate 16381 (Sym.byte 0)).length := by
  refine ⟨?_, ?_, ?_⟩
  · have hrep : List.replicate 16383 (Sym.byte 0)
        = List.replicate 8191 (Sym.byte 0) ++ List.replicate 8192 (Sym.byte 0) := by
      rw [← List.replicate_add]
    have hsplit : Sym.byte 120 :: List.replicate 16383 (Sym.byte 0)
        = (Sym.byte 120 :: List.replicate 8191 (Sym.byte 0))
          ++ List.replicate 8192 (Sym.byte 0) := by
      rw [hrep, List.cons_append]
    have hlen1 : (Sym.byte 120 :: List.replicate 8191 (Sym.byte 0)).length
        = Z_CHUNK := by
      simp only [List.length_cons, List.length_replicate, Z_CHUNK]
    have hf1 : List.take Z_CHUNK (Sym.byte 120 ::
        List.replicate 16383 (Sym.byte 0))
        = Sym.byte 120 :: List.replicate 8191 (Sym.byte 0) := by
      rw [hsplit]
      exact List.take_left' hlen1
    have hf2 : List.drop Z_CHUNK (Sym.byte 120 ::
        List.replicate 16383 (Sym.byte 0))
        = List.replicate 8192 (Sym.byte 0) := by
      rw [hsplit]
      exact List.drop_left' hlen1
    have hd3 : decompress (decompressobj ZFormat.zlibContainer)
        (Sym.byte 120 :: List.replicate 8191 (Sym.byte 0)) 1
        = some (⟨ZFormat.zlibContainer, [], List.replicate 8190 (Sym.byte 0)⟩,
            [0]) := by
      have h := decompress_hdr_append (decompressobj ZFormat.zlibContainer)
        (List.replicate 8191 0) 1
      rw [show (decompressobj ZFormat.zlibContainer).hdr = [Sym.byte 120]
        from rfl] at h
      rw [show (decompressobj ZFormat.zlibContainer).fmt
        = ZFormat.zlibContainer from rfl] at h
      rw [bytesToSyms_replicate, List.singleton_append, List.take_replicate,
        List.drop_replicate] at h
      rw [show min 1 8191 = 1 from by norm_num] at h
      rw [show (8191 - 1 : Nat) = 8190 from by norm_num] at h
      rw [List.replicate_one, bytesToSyms_replicate] at h
      exact h
    have hstep1 := readLoop_step_ok
      (Sym.byte 120 :: List.replicate 16383 (Sym.byte 0))
      (decompressobj ZFormat.zlibContainer) true [] 0 1
      (⟨ZFormat.zlibContainer, [], List.replicate 8190 (Sym.byte 0)⟩, [0])
      (by norm_num)
      (by rw [hf1]; exact List.cons_ne_nil _ _)
      (by rw [show (decompressobj ZFormat.zlibContainer).unconsumed_tail = []
            from rfl, List.nil_append, hf1]
          exact hd3)
    have hri : (DeflateDecoder.init
        (Sym.byte 120 :: List.replicate 16383 (Sym.byte 0))).readinto 1
        = ReadResult.ok (List.replicate 8192 (Sym.byte 0))
            ⟨ZFormat.zlibContainer, [], List.replicate 8190 (Sym.byte 0)⟩ none
            [0] 0 := by
      show readLoop (Sym.byte 120 :: List.replicate 16383 (Sym.byte 0))
          (decompressobj ZFormat.zlibContainer) true none [] 0 1 = _
      rw [hstep1, hf2]
      rw [show ([] : List Nat) ++ [0] = [0] from rfl]
      rw [show (1 - ([0] : List Nat).length : Nat) = 0 from rfl]
      exact readLoop_zero _ _ _ _ _ _
    rw [ZDecoderState.read, hri]
  · have hg1 : List.take Z_CHUNK (List.replicate 8192 (Sym.byte 0))
        = List.replicate 8192 (Sym.byte 0) :=
      List.take_of_length_le
        (by rw [List.length_replicate]; simp [Z_CHUNK])
    have hg2 : List.drop Z_CHUNK (List.replicate 8192 (Sym.byte 0))
        = [] :=
      List.drop_eq_nil_of_le (by rw [List.length_replicate]; simp [Z_CHUNK])
    have hgne : List.replicate 8192 (Sym.byte 0) ≠ [] := by
      intro hcon
      have := congrArg List.length hcon
      simp only [List.length_replicate, List.length_nil] at this
      omega
    have hcomb : List.replicate 8190 (Sym.byte 0)
        ++ List.replicate 8192 (Sym.byte 0)
        = List.replicate 16382 (Sym.byte 0) := by
      rw [← List.replicate_add]
    have hd4 : decompress ⟨ZFormat.zlibContainer, [],
        List.replicate 8190 (Sym.byte 0)⟩ (List.replicate 16382 (Sym.byte 0)) 1
        = some (⟨ZFormat.zlibContainer, [],
            List.replicate 16381 (Sym.byte 0)⟩, [0]) := by
      have h := decompress_hdr_append ⟨ZFormat.zlibContainer, [],
        List.replicate 8190 (Sym.byte 0)⟩ (List.replicate 16382 0) 1
      rw [show (DecompressObj.mk ZFormat.zlibContainer []
        (List.replicate 8190 (Sym.byte 0))).hdr = [] from rfl] at h
      rw [show (DecompressObj.mk ZFormat.zlibContainer []
        (List.replicate 8190 (Sym.byte 0))).fmt = ZFormat.zlibContainer
        from rfl] at h
      rw [List.nil_append, bytesToSyms_replicate, List.take_replicate,
        List.drop_replicate] at h
      rw [show min 1 16382 = 1 from by norm_num] at h
      rw [show (16382 - 1 : Nat) = 16381 from by norm_num] at h
      rw [List.replicate_one, bytesToSyms_replicate] at h
      exact h
    have hstep2 := readLoop_step_ok (List.replicate 8192 (Sym.byte 0))
      ⟨ZFormat.zlibContainer, [], List.replicate 8190 (Sym.byte 0)⟩ false [] 0 1
      (⟨ZFormat.zlibContainer, [], List.replicate 16381 (Sym.byte 0)⟩, [0])
      (by norm_num)
      (by rw [hg1]; exact hgne)
      (by rw [show (DecompressObj.mk ZFormat.zlibContainer []
            (List.replicate 8190 (Sym.byte 0))).unconsumed_tail
            = List.replicate 8190 (Sym.byte 0) from rfl, hg1, hcomb]
          exact hd4)
    have hri : ZDecoderState.readinto ⟨List.replicate 8192 (Sym.byte 0),
        some ⟨ZFormat.zlibContainer, [], List.replicate 8190 (Sym.byte 0)⟩,
        none⟩ 1
        = ReadResult.ok []
            ⟨ZFormat.zlibContainer, [], List.replicate 16381 (Sym.byte 0)⟩ none
            [0] 0 := by
      show readLoop (List.replicate 8192 (Sym.byte 0))
          ⟨ZFormat.zlibContainer, [], List.replicate 8190 (Sym.byte 0)⟩ false
          none [] 0 1 = _
      rw [hstep2, hg2]
      rw [show ([] : List Nat) ++ [0] = [0] from rfl]
      rw [show (1 - ([0] : List Nat).length : Nat) = 0 from rfl]
      exact readLoop_zero _ _ _ _ _ _
    rw [ZDecoderState.read, hri]
  · rw [List.length_replicate]
    simp [Z_CHUNK]

theorem decompress_tail_le (z : DecompressObj) (data : List Sym)
    (maxLength : Nat) (zd : DecompressObj × List Nat)
    (h : decompress z data maxLength = some zd) :
    zd.1.unconsumed_tail.length ≤ data.length := by
  simp only [decompress] at h
  split at h
  · split at h
    · cases h
      simp only [List.length_drop]
      omega
    · exact absurd h (by simp)
  · exact absurd h (by simp)

/-- The loop never duplicates buffered data: the compressed symbols buffered
in the engine tail plus those still upstream never increase. -/
theorem readLoop_tail_bound : ∀ (n : Nat) (fp : List Sym) (z : DecompressObj)
    (retry : Bool) (flushed : Option (List Nat)) (acc : List Nat)
    (rt maxLength : Nat) (fp' : List Sym) (z' : DecompressObj)
    (fl' : Option (List Nat)) (out : List Nat) (rt' : Nat),
    2 * fp.length + (if flushed.isSome then 0 else 1) + maxLength ≤ n →
    readLoop fp z retry flushed acc rt maxLength
      = ReadResult.ok fp' z' fl' out rt' →
    z'.unconsumed_tail.length + fp'.length
      ≤ z.unconsumed_tail.length + fp.length := by
  intro n
  induction n with
  | zero =>
    intro fp z retry flushed acc rt maxLength fp' z' fl' out rt' hn heq
    have hm0 : maxLength = 0 := by omega
    subst hm0
    rw [readLoop_zero] at heq
    cases heq
    omega
  | succ n ih =>
    intro fp z retry flushed acc rt maxLength fp' z' fl' out rt' hn heq
    by_cases hm0 : maxLength = 0
    · subst hm0
      rw [readLoop_zero] at heq
      cases heq
      omega
    cases flushed with
    | some fl =>
      have hn0 : 2 * fp.length + 0 + maxLength ≤ n + 1 := by simpa using hn
      rw [readLoop.eq_def, if_neg hm0] at heq
      by_cases hfle : fl = []
      · simp only [hfle, dite_true] at heq
        cases heq
        omega
      · simp only [hfle, dite_false] at heq
        have hfllen : 0 < fl.length := List.length_pos.mpr hfle
        exact ih _ _ _ _ _ _ _ _ _ _ _ _
          (by simp only [Option.isSome_some, if_true, List.length_take]; omega)
          heq
    | none =>
      have hn0 : 2 * fp.length + 1 + maxLength ≤ n + 1 := by simpa using hn
      have hzc : Z_CHUNK = 8192 := rfl
      rw [readLoop.eq_def, if_neg hm0] at heq
      dsimp only at heq
      have hchlen : (fp.take Z_CHUNK).length + (fp.drop Z_CHUNK).length
          = fp.length := by
        simp only [List.length_take, List.length_drop]
        omega
      split at heq
      · rename_i zd hdec
        have htl := decompress_tail_le _ _ _ _ hdec
        simp only [List.length_append] at htl
        split at heq
        · rename_i hch
          have hfpnil : fp = [] := by
            rcases List.take_eq_nil_iff.mp hch with h | h
            · exact absurd h (by simp [Z_CHUNK])
            · exact h
          split at heq
          · rename_i fl2 hfl2
            have hrec := ih _ _ _ _ _ _ _ _ _ _ _ _
              (show 2 * (fp.drop Z_CHUNK).length + 0
                  + (maxLength - zd.2.length) ≤ n by
                subst hfpnil
                simp only [List.drop_nil, List.length_nil] at *
                omega) heq
            rw [hch] at htl
            simp only [List.length_nil] at htl
            omega
          · exact absurd heq (by simp)
        · rename_i hch
          have hfplen : 0 < fp.length :=
            List.length_pos.mpr (fun hh => hch (by simp [hh]))
          have hrec := ih _ _ _ _ _ _ _ _ _ _ _ _
            (show 2 * (fp.drop Z_CHUNK).length + 1
                + (maxLength - zd.2.length) ≤ n by
              simp only [List.length_drop]
              omega) heq
          simp only [List.length_drop, List.length_take] at htl hrec ⊢
          omega
      · split at heq
        · split at heq
          · rename_i zd2 hdec2
            have htl := decompress_tail_le _ _ _ _ hdec2
            simp only [List.length_append] at htl
            split at heq
            · rename_i hch
              have hfpnil : fp = [] := by
                rcases List.take_eq_nil_iff.mp hch with h | h
                · exact absurd h (by simp [Z_CHUNK])
                · exact h
              split at heq
              · rename_i fl2 hfl2
                have hrec := ih _ _ _ _ _ _ _ _ _ _ _ _
                  (show 2 * (fp.drop Z_CHUNK).length + 0
                      + (maxLength - zd2.2.length) ≤ n by
                    subst hfpnil
                    simp only [List.drop_nil, List.length_nil] at *
                    omega) heq
                rw [hch] at htl
                simp only [List.length_nil] at htl
                omega
              · exact absurd heq (by simp)
            · rename_i hch
              have hfplen : 0 < fp.length :=
                List.length_pos.mpr (fun hh => hch (by simp [hh]))
              have hrec := ih _ _ _ _ _ _ _ _ _ _ _ _
                (show 2 * (fp.drop Z_CHUNK).length + 1
                    + (maxLength - zd2.2.length) ≤ n by
                  simp only [List.length_drop]
                  omega) heq
              simp only [List.length_drop, List.length_take] at htl hrec ⊢
              omega
          · exact absurd heq (by simp)
        · exact absurd heq (by simp)

/-- Compressed symbols buffered inside the decoder instance. -/
def ZDecoderState.tailLength (s : ZDecoderState) : Nat :=
  match s.z with
  | none => 0
  | some z => z.unconsumed_tail.length

/-- C7 amended: the buffered compressed tail plus the unread upstream never
grows across a read call (nothing is duplicated or conjured), but the tail
itself is not bounded by one `Z_CHUNK` and does depend on the caller's read
sizes — see the counterexample, where it reaches 16381 symbols. -/
theorem buffer_conservation (s : ZDecoderState) (k : Nat) (s' : ZDecoderState)
    (out : List Nat) (h : s.read k = some (s', out)) :
    s'.tailLength + s'.fp.length ≤ s.tailLength + s.fp.length := by
  rw [ZDecoderState.read] at h
  rcases hri : s.readinto k with ⟨fp', z', fl', out1, rt'⟩ | ⟨w, r⟩ <;>
    rw [hri] at h
  · simp only [Option.some.injEq, Prod.mk.injEq] at h
    obtain ⟨hs', -⟩ := h
    rw [ZDecoderState.readinto] at hri
    have hb : 2 * s.fp.length + (if s.flushed.isSome then 0 else 1) + k
        ≤ 2 * s.fp.length + 1 + k := by
      rcases s.flushed <;> simp
    subst hs'
    split at hri
    · rename_i hz
      have := readLoop_tail_bound (2 * s.fp.length + 1 + k) _ _ _ _ _ _ _ _ _
        _ _ _ hb hri
      simp only [ZDecoderState.tailLength, hz, decompressobj] at this ⊢
      simpa using this
    · rename_i z hz
      have := readLoop_tail_bound (2 * s.fp.length + 1 + k) _ _ _ _ _ _ _ _ _
        _ _ _ hb hri
      simp only [ZDecoderState.tailLength, hz] at this ⊢
      exact this
  · simp at h

/-- Witness for the amended C7 at a concrete state. -/
theorem buffer_conservation_witness :
    ZDecoderState.tailLength ⟨[], some (decompressobj ZFormat.gzipContainer),
        some []⟩
      + (ZDecoderState.fp ⟨[], some (decompressobj ZFormat.gzipContainer),
        some []⟩).length
    ≤ ZDecoderState.tailLength ⟨[], some (decompressobj ZFormat.gzipContainer),
        some []⟩
      + (ZDecoderState.fp ⟨[], some (decompressobj ZFormat.gzipContainer),
        some []⟩).length :=
  buffer_conservation ⟨[], some (decompressobj ZFormat.gzipContainer), some []⟩
    2 ⟨[], some (decompressobj ZFormat.gzipContainer), some []⟩ []
    (read_drained [] (decompressobj ZFormat.gzipContainer) 2)

/-! ### All-or-nothing delivery on failure -/

/-- C8: a read call that fails delivers nothing to the caller (the exception
propagates before any byte count is returned), and on a well-formed stream
(any state satisfying the invariant) a read call never fails and delivers
exactly the next owed bytes.  Hence corrupted or partial data is never
handed to the caller: prior successful results are unaffected values and a
failing call contributes nothing. -/
theorem failure_all_or_nothing :
    (∀ (s : ZDecoderState) (k : Nat) (w : List Nat) (r : Nat),
        s.readinto k = ReadResult.fail w r → s.read k = none) ∧
    (∀ (s : ZDecoderState) (R : List Nat) (k : Nat), Inv s R →
        ∃ s', s.read k = some (s', R.take k) ∧ Inv s' (R.drop k)) := by
  constructor
  · intro s k w r h
    rw [ZDecoderState.read, h]
  · intro s R k hinv
    exact read_spec s R k hinv

/-- Witness for C8: the concrete failing second call from the fallback
example delivers nothing. -/
theorem failure_all_or_nothing_witness :
    ZDecoderState.read ⟨[], some ⟨ZFormat.rawDeflate, [], [Sym.corrupt]⟩,
      none⟩ 1 = none :=
  failure_all_or_nothing.1 ⟨[], some ⟨ZFormat.rawDeflate, [], [Sym.corrupt]⟩,
    none⟩ 1 [] 0 raw_example_second_readinto

/-! ### DecompressBodyMiddleware -/

/-- The request stream object, tracked symbolically through wrapping. -/
inductive ReqStream where
  | raw
  | gzipDecoder (inner : ReqStream)
  | deflateDecoder (inner : ReqStream)
deriving DecidableEq, Repr

/-- The parts of a Django request that `DecompressBodyMiddleware` touches:
`request._stream`, `META['HTTP_CONTENT_ENCODING']`, `META['CONTENT_LENGTH']`. -/
structure HttpRequest where
  stream : ReqStream
  contentEncoding : Option String
  contentLength : Option String
deriving DecidableEq, Repr

/-- Python's `str.lower()` on the ASCII header tokens this middleware
compares against. -/
def lowerAscii (s : String) : String :=
  String.mk (s.data.map Char.toLower)

/-- `DecompressBodyMiddleware.process_request`, in direct translation. -/
def DecompressBodyMiddleware.process_request (request : HttpRequest) : HttpRequest :=
  let encoding := lowerAscii (request.contentEncoding.getD "")
  let step1 :=
    if encoding = "gzip" then
      ({ request with stream := ReqStream.gzipDecoder request.stream }, true)
    else (request, false)
  let step2 :=
    if encoding = "deflate" then
      ({ step1.1 with stream := ReqStream.deflateDecoder step1.1.stream }, true)
    else step1
  if step2.2 then
    { step2.1 with
      contentLength := some "4294967295",
      contentEncoding := none }
  else step2.1

/-- C9: `process_request` wraps the stream in the matching decoder, sets the
declared content length to the sentinel string `"4294967295"` and removes the
content-encoding header exactly when the advertised token lowercases to
`"gzip"` or `"deflate"`; any other or absent token leaves the request
untouched. -/
theorem decompress_middleware_spec (r : HttpRequest) :
    (lowerAscii (r.contentEncoding.getD "") = "gzip" →
        DecompressBodyMiddleware.process_request r
          = { stream := ReqStream.gzipDecoder r.stream,
              contentLength := some "4294967295", contentEncoding := none }) ∧
    (lowerAscii (r.contentEncoding.getD "") = "deflate" →
        DecompressBodyMiddleware.process_request r
          = { stream := ReqStream.deflateDecoder r.stream,
              contentLength := some "4294967295", contentEncoding := none }) ∧
    (lowerAscii (r.contentEncoding.getD "") ≠ "gzip" →
      lowerAscii (r.contentEncoding.getD "") ≠ "deflate" →
        DecompressBodyMiddleware.process_request r = r) := by
  refine ⟨?_, ?_, ?_⟩
  · intro h
    simp [DecompressBodyMiddleware.process_request, h]
  · intro h
    simp [DecompressBodyMiddleware.process_request, h]
  · intro h1 h2
    simp [DecompressBodyMiddleware.process_request, h1, h2]

/-- Witness for C9: a mixed-case gzip token, and an unknown token left
untouched. -/
theorem decompress_middleware_spec_witness :
    DecompressBodyMiddleware.process_request
        ⟨ReqStream.raw, some "GZip", some "33"⟩
      = ⟨ReqStream.gzipDecoder ReqStream.raw, none, some "4294967295"⟩ ∧
    DecompressBodyMiddleware.process_request
        ⟨ReqStream.raw, some "identity", some "33"⟩
      = ⟨ReqStream.raw, some "identity", some "33"⟩ :=
  ⟨(decompress_middleware_spec ⟨ReqStream.raw, some "GZip", some "33"⟩).1
      (by decide),
   (decompress_middleware_spec ⟨ReqStream.raw, some "identity", some "33"⟩).2.2
      (by decide) (by decide)⟩

end SentryProxy

/-!
Embedding of `Breadcrumbs.normalize_crumb` from
`sentry/interfaces/breadcrumbs.py`, on the `rust_renormalized = False` path
that claim C10 is about.  The helpers it calls live in repository modules
that are not part of the provided sources: `parse_timestamp`/`to_timestamp`
(`sentry.utils.dates`) and `trim` (`sentry.utils.safe`) are taken as
parameters, and `LOG_LEVELS_MAP` (`sentry.constants`) is modelled from the
spec by its key set.
-/

namespace SentryBreadcrumbs

/-- A loosely typed Python value as found in breadcrumb dictionaries; a
missing key reads as `PyVal.none` (Python `dict.get`). -/
inductive PyVal where
  | none
  | str (s : String)
  | int (n : Int)
  | dict (entries : List (String × PyVal))

/-- Python truthiness of the values above, as used by `or 'default'`. -/
def PyVal.truthy : PyVal → Bool
  | PyVal.none => false
  | PyVal.str s => if s = "" then false else true
  | PyVal.int n => if n = 0 then false else true
  | PyVal.dict [] => false
  | PyVal.dict (_ :: _) => true

/-- `six.text_type` (`str()`); the exact rendering of non-string values does
not matter to the claim. -/
def text_type : PyVal → String
  | PyVal.none => "None"
  | PyVal.str s => s
  | PyVal.int n => toString n
  | PyVal.dict _ => "dict"

/-- Modelled from the spec: the key set of `LOG_LEVELS_MAP` from
`sentry.constants`, which is not among the provided sources — the
recognized log level names. -/
def LOG_LEVELS_MAP : List String :=
  ["debug", "info", "warning", "error", "fatal"]

/-- A crumb dictionary, restricted to the keys `normalize_crumb` reads. -/
structure Crumb where
  ty : PyVal
  level : PyVal
  timestamp : PyVal
  message : PyVal
  category : PyVal
  event_id : PyVal
  data : PyVal

/-- The normalized crumb dictionary returned on success. -/
structure NormCrumb where
  ty : PyVal
  level : String
  timestamp : Int
  message : Option String
  category : Option String
  event_id : PyVal
  data : Option (List (String × PyVal))

/-- `Breadcrumbs.normalize_crumb(crumb, rust_renormalized=False)`:
`InterfaceValidationError` (the `Except.error` case) exactly when the
timestamp does not parse; otherwise every other field is defaulted or
coerced. -/
def normalize_crumb (parse_timestamp : PyVal → Option Int)
    (to_timestamp : Int → Int) (trim : String → Nat → String)
    (trimDict : List (String × PyVal) → Nat → List (String × PyVal))
    (crumb : Crumb) : Except String NormCrumb :=
  let ty := if crumb.ty.truthy then crumb.ty else PyVal.str "default"
  let level : String :=
    match crumb.level with
    | PyVal.str s =>
        if s ∈ LOG_LEVELS_MAP ∨ s = "critical" then s else "info"
    | _ => "info"
  match parse_timestamp crumb.timestamp with
  | Option.none => Except.error "Unable to determine timestamp for crumb"
  | Option.some ts0 =>
    let ts := to_timestamp ts0
    let msg := match crumb.message with
      | PyVal.none => Option.none
      | m => Option.some (trim (text_type m) 4096)
    let category := match crumb.category with
      | PyVal.none => Option.none
      | c => Option.some (trim (text_type c) 256)
    let event_id := crumb.event_id
    let data := match crumb.data with
      | PyVal.dict entries => Option.some (trimDict entries 4096)
      | _ => Option.none
    Except.ok ⟨ty, level, ts, msg, category, event_id, data⟩

/-- C10: `normalize_crumb` with `rust_renormalized = False` raises exactly
when the timestamp cannot be parsed; for a parseable timestamp it returns
normally with the documented defaulting: falsy type becomes `"default"`,
unrecognized or non-string levels become `"info"`, non-dict data becomes
`None`, and a string message is trimmed to 4096 characters. -/
theorem normalize_crumb_spec (pt : PyVal → Option Int) (tt : Int → Int)
    (trim : String → Nat → String)
    (trimD : List (String × PyVal) → Nat → List (String × PyVal))
    (c : Crumb) :
    ((normalize_crumb pt tt trim trimD c).isOk = true
      ↔ (pt c.timestamp).isSome = true) ∧
    (∀ out, normalize_crumb pt tt trim trimD c = Except.ok out →
      (c.ty = PyVal.none → out.ty = PyVal.str "default") ∧
      (c.level = PyVal.none → out.level = "info") ∧
      (∀ s, c.level = PyVal.str s → s ∉ LOG_LEVELS_MAP → s ≠ "critical" →
        out.level = "info") ∧
      ((∀ e, c.data ≠ PyVal.dict e) → out.data = Option.none) ∧
      (∀ m, c.message = PyVal.str m →
        out.message = Option.some (trim m 4096)) ∧
      (∀ t, pt c.timestamp = Option.some t → out.timestamp = tt t)) := by
  rcases hpt : pt c.timestamp with _ | ts0
  · constructor
    · simp [normalize_crumb, hpt, Except.isOk, Except.toBool]
    · intro out hout
      simp only [normalize_crumb, hpt] at hout
      exact absurd hout (by simp)
  · constructor
    · simp [normalize_crumb, hpt, Except.isOk, Except.toBool]
    · intro out hout
      simp only [normalize_crumb, hpt, Except.ok.injEq] at hout
      subst hout
      refine ⟨?_, ?_, ?_, ?_, ?_, ?_⟩
      · intro h
        simp [h, PyVal.truthy]
      · intro h
        simp [h]
      · intro s hs hmem hcrit
        simp [hs, hmem, hcrit]
      · intro h
        rcases hd : c.data with _ | s | n | e <;> simp [hd]
        exact absurd hd (h e)
      · intro m hm
        simp [hm, text_type]
      · intro t ht
        simp only [Option.some.injEq] at ht
        subst ht
        rfl

/-- Witness for C10 at a concrete crumb with a parseable timestamp and
default-triggering fields. -/
theorem normalize_crumb_spec_witness :
    (normalize_crumb
        (fun v => match v with | PyVal.int n => Option.some n | _ => Option.none)
        (fun n => n) (fun s _ => s) (fun l _ => l)
        ⟨PyVal.none, PyVal.str "bogus", PyVal.int 5, PyVal.str "m",
          PyVal.none, PyVal.none, PyVal.str "x"⟩).isOk = true :=
  (normalize_crumb_spec
      (fun v => match v with | PyVal.int n => Option.some n | _ => Option.none)
      (fun n => n) (fun s _ => s) (fun l _ => l)
      ⟨PyVal.none, PyVal.str "bogus", PyVal.int 5, PyVal.str "m",
        PyVal.none, PyVal.none, PyVal.str "x"⟩).1.mpr (by decide)

end SentryBreadcrumbs
